import Mathlib

/-!
Verification development for the asynchronous DNS resolution engine of the
`ting` library (`src/trunk/src/ting/net/HostNameResolver.cpp`).

Modelling conventions:
* bytes are natural numbers (a well-formed wire byte is `< 256`, but the
  definitions are total on `Nat`);
* the C++ pointer `p` walking a buffer `[begin, end)` is modelled by the
  still-unconsumed suffix of the byte list, so `p == end` becomes
  `remaining = []` and `end - p` becomes `remaining.length`;
* a 16-bit big-endian read `Deserialize16BE(p)` becomes pattern matching on
  two leading list cells, yielding `b0 * 256 + b1`;
* a read the C++ code performs without a preceding remaining-length check is
  modelled by a match whose fall-through arm produces the distinguished
  outcome `POut.oob` (an out-of-bounds access of the underlying buffer);
* `std::map` / `std::multimap` / `std::list` become association lists
  (key-sorted where the container sorts), and erasing through a stored
  iterator becomes erasing the first occurrence of the exact entry;
* recursion that consumes a non-structural amount of the list per step uses
  an explicit fuel argument; fuel `input.length + 1` always suffices because
  every iteration consumes at least one byte, and fuel-irrelevance lemmas
  below make the choice of fuel immaterial.
-/

/-- Outcome of parsing a DNS reply, mirroring `HostNameResolver::E_Result`
together with the returned address words.  `ok ws` carries the deserialized
32-bit words of the address (`[w]` for an A record, `[w0,w1,w2,w3]` for an
AAAA record); `err` is `DNS_ERROR` (the spec's `ProtocolError`);
`noSuchHost` is `NO_SUCH_HOST`; `oob` marks a read past the end of the
buffer (undefined behaviour in the C++ source); `undef` marks the
unreachable `ASSERT(false)` default branch reading an uninitialized
address. -/
inductive POut : Type where
  | ok : List Nat → POut
  | noSuchHost : POut
  | err : POut
  | oob : POut
  | undef : POut
deriving DecidableEq, Repr

/-- Big-endian 32-bit word from four bytes, as `Deserialize32BE`. -/
def word32 (a b c d : Nat) : Nat :=
  ((a * 256 + b) * 256 + c) * 256 + d

/-- Reads four leading bytes as one big-endian word (`Deserialize32BE(p)`);
`none` when fewer than four bytes remain, i.e. the read would be
out of bounds. -/
def readWord32 : List Nat → Option Nat
  | a :: b :: c :: d :: _ => some (word32 a b c d)
  | _ => none

/-- Fuel-indexed core of `dns::ParseHostNameFromDNSPacket` (source lines
67-97).  Arguments: fuel, unconsumed bytes, the host name accumulated so
far (the local `host` string).  Returns the parsed host name together with
the bytes remaining after the name.  The three source outcomes:
`p == end` before a terminating zero returns `("", p)` unchanged; a label
length exceeding the remaining bytes returns `("", p)` with `p` just past
the length byte; a zero length byte terminates successfully.  The fuel-zero
arm is unreachable for fuel `> input.length`. -/
def parseHostAux : Nat → List Nat → List Nat → List Nat × List Nat
  | _, [], _ => ([], [])
  | 0, _ :: rest, _ => ([], rest)
  | fuel + 1, len :: rest, acc =>
    if len = 0 then (acc, rest)
    else if rest.length < len then ([], rest)
    else parseHostAux fuel (rest.drop len)
      ((if acc = [] then acc else acc ++ [46]) ++ rest.take len)

/-- Host-name label parser `dns::ParseHostNameFromDNSPacket`: labels joined
by `.` (byte 46), consumed from the front of the buffer. -/
def parseHost (input : List Nat) (acc : List Nat) : List Nat × List Nat :=
  parseHostAux (input.length + 1) input acc

/-- Fuel-indexed predicate marking the two failure exits of
`dns::ParseHostNameFromDNSPacket` (input exhausted before the terminating
zero byte, or a declared label length exceeding the remaining bytes). -/
def parseFailsAux : Nat → List Nat → Bool
  | _, [] => true
  | 0, _ :: _ => true
  | fuel + 1, len :: rest =>
    if len = 0 then false
    else if rest.length < len then true
    else parseFailsAux fuel (rest.drop len)

/-- Whether the host-name label parser takes a failure exit on this input. -/
def parseFails (input : List Nat) : Bool :=
  parseFailsAux (input.length + 1) input

/-- Answer-record scanning loop of `LookupThread::ParseReplyFromDNS`
(source lines 428-511).  `rt` is the request's record type, `rem` the
unconsumed bytes positioned at the start of a resource record, `n` the
number of answer records still to examine.  Every field access in this
loop is guarded by a remaining-length check in the source, mirrored here
by explicit `List.length` tests before the corresponding reads. -/
def scanAnswers (rt : Nat) : List Nat → Nat → POut
  | _, 0 => .err
  | rem, n + 1 =>
    match rem with
    | [] => .err
    | b :: _ =>
      let afterName : Option (List Nat) :=
        if b >>> 6 = 0 then
          match rem.dropWhile (fun x => x ≠ 0) with
          | [] => none
          | _ :: t => some t
        else some (rem.drop 2)
      match afterName with
      | none => .err
      | some r1 =>
        match r1 with
        | t0 :: t1 :: r2 =>
          match r2 with
          | _c0 :: _c1 :: r3 =>
            if r3.length < 4 then .err
            else
              match r3.drop 4 with
              | d0 :: d1 :: r4 =>
                let dataLen := d0 * 256 + d1
                if r4.length < dataLen then .err
                else if t0 * 256 + t1 = rt then
                  if rt = 1 then
                    if dataLen < 4 then .err
                    else
                      match readWord32 r4 with
                      | some w => .ok [w]
                      | none => .oob
                  else if rt = 28 then
                    if dataLen < 16 then .err
                    else
                      match readWord32 r4, readWord32 (r4.drop 4),
                            readWord32 (r4.drop 8), readWord32 (r4.drop 12) with
                      | some w0, some w1, some w2, some w3 => .ok [w0, w1, w2, w3]
                      | _, _, _, _ => .oob
                  else .undef
                else scanAnswers rt (r4.drop dataLen) n
              | _ => .err
          | _ => .err
        | _ => .err

/-- Reply parser `LookupThread::ParseReplyFromDNS` (source lines 323-512).
`hostName` and `recordType` are the fields of the `dns::Resolver` the reply
is matched against.  The twelve leading binders are the fixed-size header
(ID, flags, question count, answer count, authority count, other count, two
bytes each); the fall-through arm is the `buf.Size() < 12` rejection.  The
question's type and class are read without a remaining-length check, as in
the source (lines 407 and 417), hence the `.oob` arms there. -/
def parseReply (hostName : List Nat) (recordType : Nat) (buf : List Nat) : POut :=
  match buf with
  | _id0 :: _id1 :: f0 :: f1 :: q0 :: q1 :: a0 :: a1 :: _n0 :: _n1 :: _r0 :: _r1 :: body =>
    let flags := f0 * 256 + f1
    if flags &&& 0x8000 = 0 then .err
    else if flags &&& 0xf ≠ 0 then
      (if flags &&& 0xf = 3 then .noSuchHost else .err)
    else if q0 * 256 + q1 ≠ 1 then .err
    else
      let numAnswers := a0 * 256 + a1
      if numAnswers = 0 then .noSuchHost
      else
        match parseHost body [] with
        | (host, rest) =>
          if host ≠ hostName then .err
          else
            match rest with
            | t0 :: t1 :: rest2 =>
              if t0 * 256 + t1 ≠ recordType then .err
              else
                match rest2 with
                | c0 :: c1 :: rest3 =>
                  if c0 * 256 + c1 ≠ 1 then .err
                  else scanAnswers recordType rest3 numAnswers
                | _ => .oob
            | _ => .oob
  | _ => .err

/-- Label encoder of `LookupThread::SendRequestToDNS` (source lines
250-270): `cur` is the label currently being copied, the second argument
the not-yet-scanned host-name bytes.  A dot (byte 46) terminates the
current label; a dot with nothing after it ends the loop without starting
a new label (the source loop's `++dotPos; dotPos < size` exit), which drops
any empty label after a final dot.  The length byte is `ting::u8`, hence
the `% 256`. -/
def encLabelsGo (cur : List Nat) : List Nat → List Nat
  | [] => (cur.length % 256) :: cur
  | b :: t =>
    if b = 46 then
      (cur.length % 256) :: cur ++ (if t.isEmpty then [] else encLabelsGo [] t)
    else encLabelsGo (cur ++ [b]) t

/-- Length-prefixed label encoding of a host name (no terminating zero yet);
an empty host name encodes no labels at all, as the source loop body never
runs. -/
def encLabels : List Nat → List Nat
  | [] => []
  | b :: t => encLabelsGo [] (b :: t)

/-- Encoded question name: labels followed by the terminating zero-length
label byte. -/
def encodeQuestion (h : List Nat) : List Nat :=
  encLabels h ++ [0]

/-- Bytes actually written by `LookupThread::SendRequestToDNS` (source lines
206-284): 12-byte header (transaction ID big-endian, flags `0x100`
big-endian, one question, zero answer/authority/other counts), the encoded
question name, the 16-bit record type and the 16-bit class 1, all
big-endian. -/
def encodeQueryPacket (id : Nat) (h : List Nat) (recordType : Nat) : List Nat :=
  [id / 256 % 256, id % 256, 1, 0, 0, 1, 0, 0, 0, 0, 0, 0] ++
    encodeQuestion h ++
    [recordType / 256 % 256, recordType % 256, 0, 1]

/-- The `packetSize` computed at source lines 209-219 and passed to
`socket.Send`: 12 header bytes plus `hostName.size() + 2` plus four bytes
of question type and class. -/
def dnsPacketSize (h : List Nat) : Nat :=
  18 + h.length

/-- Synthetic answer resource record as described by the round-trip claim:
a compression pointer to the question name (`0xc0 0x0c`), the record type,
class 1, zero TTL, the data length, and the raw address bytes. -/
def synthAnswerRecord (rt : Nat) (addrBytes : List Nat) : List Nat :=
  [0xc0, 12] ++ [rt / 256 % 256, rt % 256] ++ [0, 1] ++ [0, 0, 0, 0] ++
    [addrBytes.length / 256 % 256, addrBytes.length % 256] ++ addrBytes

/-- Synthetic well-formed response built from the encoder's own packet:
same transaction ID, QR bit set with response code 0, one question echoing
the encoded question name/type/class, and one answer record of the
requested type carrying the address bytes. -/
def synthResponse (id : Nat) (h : List Nat) (rt : Nat) (addrBytes : List Nat) : List Nat :=
  [id / 256 % 256, id % 256, 0x80, 0, 0, 1, 0, 1, 0, 0, 0, 0] ++
    encodeQuestion h ++ [rt / 256 % 256, rt % 256, 0, 1] ++
    synthAnswerRecord rt addrBytes

/-- Key of the last entry of the ascending transaction-ID registry, the
`(--(this->idMap.end()))->first` of the source; zero on the empty list
(unreachable there). -/
def lastKey : List Nat → Nat
  | [] => 0
  | [k] => k
  | _ :: k :: t => lastKey (k :: t)

/-- Adjacent-gap scan of `LookupThread::FindFreeId` (source lines 192-198):
the first ascending-adjacent pair with difference greater than one yields
the lower key plus one; `none` corresponds to falling through to
`throw TooMuchRequestsExc()`. -/
def scanGap : List Nat → Option Nat
  | k1 :: k2 :: t => if k2 - k1 > 1 then some (k1 + 1) else scanGap (k2 :: t)
  | _ => none

/-- `LookupThread::FindFreeId` (source lines 179-201) over the ascending
key list of the transaction-ID registry; `none` models the
`TooMuchRequestsExc` throw. -/
def findFreeId (keys : List Nat) : Option Nat :=
  match keys with
  | [] => some 0
  | k0 :: _ =>
    if k0 ≠ 0 then some (k0 - 1)
    else if lastKey keys ≠ 65535 then some (lastKey keys + 1)
    else scanGap keys

/-- The host-name parser does not depend on the fuel argument once the fuel
exceeds the input length, since every iteration consumes at least one byte. -/
theorem parseHostAux_congr (f : Nat) : ∀ (g : Nat) (input acc : List Nat),
    input.length < f → input.length < g →
    parseHostAux f input acc = parseHostAux g input acc := by
  induction f with
  | zero => intro g input acc hf _; omega
  | succ f ih =>
    intro g input acc hf hg
    match input with
    | [] =>
      match g with
      | 0 => rfl
      | g + 1 => rfl
    | len :: rest =>
      match g, hg with
      | g + 1, hg =>
        simp only [List.length_cons] at hf hg
        simp only [parseHostAux]
        by_cases h0 : len = 0
        · simp [h0]
        · simp only [if_neg h0]
          by_cases hlen : rest.length < len
          · simp [hlen]
          · simp only [if_neg hlen]
            exact ih g _ _ (by simp only [List.length_drop]; omega)
              (by simp only [List.length_drop]; omega)

/-- One-step unfolding of `parseHost` with the fuel realigned. -/
theorem parseHost_cons (len : Nat) (rest acc : List Nat) :
    parseHost (len :: rest) acc =
      if len = 0 then (acc, rest)
      else if rest.length < len then ([], rest)
      else parseHost (rest.drop len)
        ((if acc = [] then acc else acc ++ [46]) ++ rest.take len) := by
  show parseHostAux (rest.length + 1 + 1) (len :: rest) acc = _
  simp only [parseHostAux]
  by_cases h0 : len = 0
  · simp [h0]
  · simp only [if_neg h0]
    by_cases hlen : rest.length < len
    · simp [hlen]
    · simp only [if_neg hlen]
      exact parseHostAux_congr _ _ _ _ (by simp only [List.length_drop]; omega)
        (by simp only [List.length_drop]; omega)

/-- The failure predicate likewise ignores surplus fuel. -/
theorem parseFailsAux_congr (f : Nat) : ∀ (g : Nat) (input : List Nat),
    input.length < f → input.length < g →
    parseFailsAux f input = parseFailsAux g input := by
  induction f with
  | zero => intro g input hf _; omega
  | succ f ih =>
    intro g input hf hg
    match input with
    | [] =>
      match g with
      | 0 => rfl
      | g + 1 => rfl
    | len :: rest =>
      match g, hg with
      | g + 1, hg =>
        simp only [List.length_cons] at hf hg
        simp only [parseFailsAux]
        by_cases h0 : len = 0
        · simp [h0]
        · simp only [if_neg h0]
          by_cases hlen : rest.length < len
          · simp [hlen]
          · simp only [if_neg hlen]
            exact ih g _ (by simp only [List.length_drop]; omega)
              (by simp only [List.length_drop]; omega)

/-- One-step unfolding of `parseFails`. -/
theorem parseFails_cons (len : Nat) (rest : List Nat) :
    parseFails (len :: rest) =
      if len = 0 then false
      else if rest.length < len then true
      else parseFails (rest.drop len) := by
  show parseFailsAux (rest.length + 1 + 1) (len :: rest) = _
  simp only [parseFailsAux]
  by_cases h0 : len = 0
  · simp [h0]
  · simp only [if_neg h0]
    by_cases hlen : rest.length < len
    · simp [hlen]
    · simp only [if_neg hlen]
      exact parseFailsAux_congr _ _ _ (by simp only [List.length_drop]; omega)
        (by simp only [List.length_drop]; omega)

/-- Flat length-prefixed encoding of an explicit label list, the reference
shape the encoder is proved to produce on well-formed host names. -/
def encLabelsOf : List (List Nat) → List Nat
  | [] => []
  | l :: ls => (l.length % 256) :: l ++ encLabelsOf ls

/-- Accumulator-threaded dot join, mirroring how the parser's local `host`
string grows label by label. -/
def joinAcc (acc : List Nat) : List (List Nat) → List Nat
  | [] => acc
  | l :: ls => joinAcc ((if acc = [] then acc else acc ++ [46]) ++ l) ls

/-- Labels joined by `.` (byte 46): the host-name string corresponding to a
label list. -/
def dotJoin : List (List Nat) → List Nat
  | [] => []
  | [l] => l
  | l :: l2 :: ls => l ++ 46 :: dotJoin (l2 :: ls)

/-- Dot-prefixed join of the labels after the first. -/
def dotTail : List (List Nat) → List Nat
  | [] => []
  | l :: ls => 46 :: l ++ dotTail ls

theorem dotJoin_cons (x : List Nat) (ls : List (List Nat)) :
    dotJoin (x :: ls) = x ++ dotTail ls := by
  induction ls generalizing x with
  | nil => simp [dotJoin, dotTail]
  | cons y ys ih => simp [dotJoin, dotTail, ih y]

theorem joinAcc_of_ne (ls : List (List Nat)) : ∀ (acc : List Nat), acc ≠ [] →
    joinAcc acc ls = acc ++ dotTail ls := by
  induction ls with
  | nil => intro acc _; simp [joinAcc, dotTail]
  | cons l ls ih =>
    intro acc hacc
    simp only [joinAcc, if_neg hacc, dotTail]
    rw [ih _ (by simp)]
    simp

/-- The parser's accumulator run started empty produces exactly the
dot-joined labels, provided every label is nonempty. -/
theorem joinAcc_nil_eq_dotJoin (ls : List (List Nat))
    (hne : ∀ l ∈ ls, l ≠ []) : joinAcc [] ls = dotJoin ls := by
  match ls with
  | [] => rfl
  | l :: ls =>
    have hl : l ≠ [] := hne l (by simp)
    have h1 : joinAcc [] (l :: ls) = joinAcc l ls := by simp [joinAcc]
    rw [h1, joinAcc_of_ne ls l hl, dotJoin_cons]

theorem encLabelsGo_no_dot (l : List Nat) : ∀ (cur : List Nat), (46 : Nat) ∉ l →
    encLabelsGo cur l = ((cur ++ l).length % 256) :: (cur ++ l) := by
  induction l with
  | nil => intro cur _; simp [encLabelsGo]
  | cons b t ih =>
    intro cur hb
    have hb46 : b ≠ 46 := fun h => hb (by simp [h])
    simp only [encLabelsGo, if_neg hb46]
    rw [ih (cur ++ [b]) (fun h => hb (by simp [h]))]
    simp

theorem encLabelsGo_dot (l : List Nat) : ∀ (cur R : List Nat), (46 : Nat) ∉ l → R ≠ [] →
    encLabelsGo cur (l ++ 46 :: R) =
      ((cur ++ l).length % 256) :: (cur ++ l) ++ encLabelsGo [] R := by
  induction l with
  | nil =>
    intro cur R _ hR
    match R, hR with
    | r :: rs, _ => simp [encLabelsGo]
  | cons b t ih =>
    intro cur R hb hR
    have hb46 : b ≠ 46 := fun h => hb (by simp [h])
    have step : ∀ (c X : List Nat), encLabelsGo c (b :: X) = encLabelsGo (c ++ [b]) X := by
      intro c X
      simp [encLabelsGo, hb46]
    rw [List.cons_append, step, ih (cur ++ [b]) R (fun h => hb (by simp [h])) hR]
    simp

/-- Well-formedness of a label list: every label is nonempty, at most 255
bytes long, and free of the separator byte 46. -/
def GoodLabels (ls : List (List Nat)) : Prop :=
  ∀ l ∈ ls, l ≠ [] ∧ l.length ≤ 255 ∧ (46 : Nat) ∉ l

/-- On a dot-joined well-formed label list the source's label encoder
produces exactly the flat length-prefixed encoding. -/
theorem encLabels_dotJoin (ls : List (List Nat)) (h : GoodLabels ls) :
    encLabels (dotJoin ls) = encLabelsOf ls := by
  match ls with
  | [] => rfl
  | l :: ls =>
    rw [dotJoin_cons]
    obtain ⟨hl, -, hl46⟩ := h l (by simp)
    have hstep : ∀ (ls' : List (List Nat)) (l' : List Nat), GoodLabels (l' :: ls') →
        encLabelsGo [] (l' ++ dotTail ls') = encLabelsOf (l' :: ls') := by
      intro ls'
      induction ls' with
      | nil =>
        intro l' h'
        obtain ⟨-, -, h46⟩ := h' l' (by simp)
        simp only [dotTail, List.append_nil, encLabelsOf]
        rw [encLabelsGo_no_dot l' [] h46]
        simp
      | cons l2 ls2 ih =>
        intro l' h'
        obtain ⟨-, -, h46⟩ := h' l' (by simp)
        have h2 : GoodLabels (l2 :: ls2) := by
          intro x hx
          exact h' x (by simp [hx])
        simp only [dotTail]
        rw [List.cons_append, encLabelsGo_dot l' [] (l2 ++ dotTail ls2) h46
          (by obtain ⟨h2ne, -, -⟩ := h2 l2 (by simp); simp [h2ne])]
        rw [ih l2 h2]
        simp [encLabelsOf]
    have hne : dotJoin (l :: ls) ≠ [] := by
      rw [dotJoin_cons]
      simp [hl]
    rw [dotJoin_cons] at hne
    match hl' : l ++ dotTail ls, hne with
    | b :: t, _ =>
      show encLabels (b :: t) = _
      rw [show encLabels (b :: t) = encLabelsGo [] (b :: t) from rfl, ← hl']
      exact hstep ls l h

/-- Parsing the encoded labels followed by the terminating zero byte
recovers the accumulated dot join and leaves exactly the trailing bytes. -/
theorem parseHost_encLabelsOf (ls : List (List Nat)) : ∀ (post acc : List Nat),
    GoodLabels ls →
    parseHost (encLabelsOf ls ++ 0 :: post) acc = (joinAcc acc ls, post) := by
  induction ls with
  | nil =>
    intro post acc _
    simp only [encLabelsOf, List.nil_append, joinAcc]
    rw [parseHost_cons]
    simp
  | cons l ls ih =>
    intro post acc h
    obtain ⟨hl, hlen, -⟩ := h l (by simp)
    have hmod : l.length % 256 = l.length := Nat.mod_eq_of_lt (by omega)
    have hrec : GoodLabels ls := fun x hx => h x (by simp [hx])
    simp only [encLabelsOf, hmod, List.cons_append, List.append_assoc]
    rw [parseHost_cons]
    rw [if_neg (by simp [hl]), if_neg (by simp)]
    rw [List.take_left, List.drop_left]
    rw [ih post ((if acc = [] then acc else acc ++ [46]) ++ l) hrec]
    simp [joinAcc]

/-- Decoding the synthetic A-record response built from the encoder's own
question recovers the embedded IPv4 address, for any well-formed label
list. -/
theorem roundTripA (ls : List (List Nat)) (hgood : GoodLabels ls) (id a0 a1 a2 a3 : Nat) :
    parseReply (dotJoin ls) 1 (synthResponse id (dotJoin ls) 1 [a0, a1, a2, a3]) =
      POut.ok [word32 a0 a1 a2 a3] := by
  have hgood' : ∀ l ∈ ls, l ≠ [] := fun l hl => (hgood l hl).1
  have hname := parseHost_encLabelsOf ls
    [0, 1, 0, 1, 192, 12, 0, 1, 0, 1, 0, 0, 0, 0, 0, 4, a0, a1, a2, a3] [] hgood
  rw [joinAcc_nil_eq_dotJoin ls hgood'] at hname
  simp only [synthResponse, encodeQuestion, encLabels_dotJoin ls hgood, synthAnswerRecord]
  norm_num
  simp only [parseReply]
  norm_num
  rw [hname]
  simp [scanAnswers, readWord32]
  decide

/-- Decoding the synthetic AAAA-record response built from the encoder's
own question recovers the embedded IPv6 address, for any well-formed label
list. -/
theorem roundTripAAAA (ls : List (List Nat)) (hgood : GoodLabels ls)
    (id b0 b1 b2 b3 b4 b5 b6 b7 b8 b9 b10 b11 b12 b13 b14 b15 : Nat) :
    parseReply (dotJoin ls) 28 (synthResponse id (dotJoin ls) 28
        [b0, b1, b2, b3, b4, b5, b6, b7, b8, b9, b10, b11, b12, b13, b14, b15]) =
      POut.ok [word32 b0 b1 b2 b3, word32 b4 b5 b6 b7,
        word32 b8 b9 b10 b11, word32 b12 b13 b14 b15] := by
  have hgood' : ∀ l ∈ ls, l ≠ [] := fun l hl => (hgood l hl).1
  have hname := parseHost_encLabelsOf ls
    [0, 28, 0, 1, 192, 12, 0, 28, 0, 1, 0, 0, 0, 0, 0, 16,
      b0, b1, b2, b3, b4, b5, b6, b7, b8, b9, b10, b11, b12, b13, b14, b15] [] hgood
  rw [joinAcc_nil_eq_dotJoin ls hgood'] at hname
  simp only [synthResponse, encodeQuestion, encLabels_dotJoin ls hgood, synthAnswerRecord]
  norm_num
  simp only [parseReply]
  norm_num
  rw [hname]
  simp [scanAnswers, readWord32]
  decide

/-- A four-byte big-endian read succeeds whenever four bytes remain. -/
theorem readWord32_isSome (l : List Nat) (h : 4 ≤ l.length) : ∃ w, readWord32 l = some w := by
  rcases l with _ | ⟨a, _ | ⟨b, _ | ⟨c, _ | ⟨d, t⟩⟩⟩⟩
  · exfalso; simp at h
  · exfalso; simp at h
  · exfalso; simp at h
  · exfalso; simp at h
  · exact ⟨word32 a b c d, rfl⟩

/-- The answer-record scanning loop never reads out of bounds: every field
access there is preceded by a remaining-length check in the source. -/
theorem scanAnswers_ne_oob (rt : Nat) : ∀ (n : Nat) (rem : List Nat), scanAnswers rt rem n ≠ POut.oob := by
  intro n
  induction n with
  | zero => intro rem; simp [scanAnswers]
  | succ n ih =>
    intro rem
    simp only [scanAnswers]
    cases rem with
    | nil => simp
    | cons b rest =>
      simp only []
      split
      · simp
      · rename_i r1 _
        match r1 with
        | [] => simp
        | [t0] => simp
        | t0 :: t1 :: r2 =>
          match r2 with
          | [] => simp
          | [c0] => simp
          | c0 :: c1 :: r3 =>
            simp only []
            split
            · simp
            · rename_i hlen4
              split
              · rename_i d0 d1 r4 heq
                by_cases hl : r4.length < d0 * 256 + d1
                · simp [hl]
                · simp only [if_neg hl]
                  by_cases ht : t0 * 256 + t1 = rt
                  · simp only [if_pos ht]
                    by_cases h1 : rt = 1
                    · simp only [if_pos h1]
                      by_cases hd4 : d0 * 256 + d1 < 4
                      · simp [hd4]
                      · obtain ⟨w, hw⟩ := readWord32_isSome r4 (by omega)
                        simp [hd4, hw]
                    · simp only [if_neg h1]
                      by_cases h28 : rt = 28
                      · simp only [if_pos h28]
                        by_cases hd16 : d0 * 256 + d1 < 16
                        · simp [hd16]
                        · obtain ⟨w0, hw0⟩ := readWord32_isSome r4 (by omega)
                          obtain ⟨w1, hw1⟩ := readWord32_isSome (r4.drop 4)
                            (by simp only [List.length_drop]; omega)
                          obtain ⟨w2, hw2⟩ := readWord32_isSome (r4.drop 8)
                            (by simp only [List.length_drop]; omega)
                          obtain ⟨w3, hw3⟩ := readWord32_isSome (r4.drop 12)
                            (by simp only [List.length_drop]; omega)
                          simp [hd16, hw0, hw1, hw2, hw3]
                      · simp [h28]
                  · simp only [if_neg ht]
                    exact ih _
              · simp

/-- C1 (amended): the reply parser's header checks and every answer-record
field access are guarded by remaining-length checks, and insufficiency
yields the `DNS_ERROR` outcome; the only out-of-bounds reads are the
question's type and class fields, which the source reads without a
remaining-length check, so an out-of-bounds access occurs exactly when the
header checks pass, the question name parses to the request's host name,
and fewer than four bytes remain after the question name; an untruncated
well-formed response still parses validly. -/
theorem C1_truncation_safety :
    (∀ (h : List Nat) (rt : Nat) (buf : List Nat),
        parseReply h rt buf = POut.oob →
          (parseHost (buf.drop 12) []).1 = h ∧ (parseHost (buf.drop 12) []).2.length < 4) ∧
    parseReply [97] 1 (synthResponse 0 [97] 1 [93, 184, 216, 34]) =
      POut.ok [word32 93 184 216 34] := by
  constructor
  · intro h rt buf hoob
    rcases buf with _ | ⟨i0, _ | ⟨i1, _ | ⟨f0, _ | ⟨f1, _ | ⟨q0, _ | ⟨q1, _ | ⟨a0, _ | ⟨a1, _ | ⟨n0, _ | ⟨n1, _ | ⟨r0, _ | ⟨r1, body⟩⟩⟩⟩⟩⟩⟩⟩⟩⟩⟩⟩ <;>
      simp only [parseReply] at hoob <;> try exact POut.noConfusion hoob
    have hdrop : (i0 :: i1 :: f0 :: f1 :: q0 :: q1 :: a0 :: a1 :: n0 :: n1 :: r0 :: r1 :: body).drop 12 = body := rfl
    rw [hdrop]
    by_cases c1 : (f0 * 256 + f1) &&& 32768 = 0
    · rw [if_pos c1] at hoob; exact absurd hoob (by decide)
    rw [if_neg c1] at hoob
    by_cases c2 : (f0 * 256 + f1) &&& 15 = 0
    swap
    · rw [if_pos c2] at hoob
      by_cases c2' : (f0 * 256 + f1) &&& 15 = 3
      · rw [if_pos c2'] at hoob; exact absurd hoob (by decide)
      · rw [if_neg c2'] at hoob; exact absurd hoob (by decide)
    rw [if_neg (not_not_intro c2)] at hoob
    by_cases c3 : q0 * 256 + q1 = 1
    swap
    · rw [if_pos c3] at hoob; exact absurd hoob (by decide)
    rw [if_neg (not_not_intro c3)] at hoob
    by_cases c4 : a0 * 256 + a1 = 0
    · rw [if_pos c4] at hoob; exact absurd hoob (by decide)
    rw [if_neg c4] at hoob
    by_cases c5 : (parseHost body []).1 = h
    swap
    · rw [if_pos c5] at hoob; exact absurd hoob (by decide)
    rw [if_neg (not_not_intro c5)] at hoob
    refine ⟨c5, ?_⟩
    rcases hrest : (parseHost body []).2 with _ | ⟨t0, _ | ⟨t1, rest2⟩⟩
    · simp
    · simp
    rw [hrest] at hoob
    simp only [] at hoob
    by_cases c6 : t0 * 256 + t1 = rt
    swap
    · rw [if_pos c6] at hoob; exact absurd hoob (by decide)
    rw [if_neg (not_not_intro c6)] at hoob
    rcases rest2 with _ | ⟨x0, _ | ⟨x1, rest3⟩⟩
    · simp
    · simp
    exfalso
    simp only [] at hoob
    by_cases c7 : x0 * 256 + x1 = 1
    · rw [if_neg (not_not_intro c7)] at hoob
      exact scanAnswers_ne_oob rt (a0 * 256 + a1) rest3 hoob
    · rw [if_pos c7] at hoob; exact absurd hoob (by decide)
  · decide

/-- C1 counterexample: truncating the well-formed synthetic response for
host name "a" at byte boundary 15 (just after the question name) drives
the parser into an out-of-bounds read of the question type field, not a
`ProtocolError` outcome. -/
theorem C1_counterexample :
    parseReply [97] 1 ((synthResponse 0 [97] 1 [93, 184, 216, 34]).take 15) = POut.oob := by
  decide

/-- C1 witness: the amended characterization applied at the concrete
truncated response. -/
theorem C1_witness :
    (parseHost (((synthResponse 0 [97] 1 [93, 184, 216, 34]).take 15).drop 12) []).1 = [97] ∧
    (parseHost (((synthResponse 0 [97] 1 [93, 184, 216, 34]).take 15).drop 12) []).2.length < 4 :=
  C1_truncation_safety.1 [97] 1 ((synthResponse 0 [97] 1 [93, 184, 216, 34]).take 15) (by decide)

/-- C4 (amended): for every host name that is a dot join of nonempty,
dot-free labels of at most 255 bytes each (in particular with no leading,
trailing or doubled dots) and of total length at most 253, decoding the
synthetic well-formed response built from the encoder's own packet yields
the `OK` outcome with exactly the address embedded in the synthetic answer,
for both the A and the AAAA record type. -/
theorem C4_round_trip :
    ∀ (ls : List (List Nat)), GoodLabels ls → (dotJoin ls).length ≤ 253 →
      (∀ (id a0 a1 a2 a3 : Nat),
          parseReply (dotJoin ls) 1 (synthResponse id (dotJoin ls) 1 [a0, a1, a2, a3]) =
            POut.ok [word32 a0 a1 a2 a3]) ∧
      (∀ (id b0 b1 b2 b3 b4 b5 b6 b7 b8 b9 b10 b11 b12 b13 b14 b15 : Nat),
          parseReply (dotJoin ls) 28 (synthResponse id (dotJoin ls) 28
              [b0, b1, b2, b3, b4, b5, b6, b7, b8, b9, b10, b11, b12, b13, b14, b15]) =
            POut.ok [word32 b0 b1 b2 b3, word32 b4 b5 b6 b7,
              word32 b8 b9 b10 b11, word32 b12 b13 b14 b15]) :=
  fun ls hgood _ =>
    ⟨fun id a0 a1 a2 a3 => roundTripA ls hgood id a0 a1 a2 a3,
     fun id b0 b1 b2 b3 b4 b5 b6 b7 b8 b9 b10 b11 b12 b13 b14 b15 =>
       roundTripAAAA ls hgood id b0 b1 b2 b3 b4 b5 b6 b7 b8 b9 b10 b11 b12 b13 b14 b15⟩

/-- C4 counterexample: the host name "a." is at most 253 bytes, yet the
synthetic well-formed response built from the encoder's own packet decodes
to `DNS_ERROR` instead of recovering the embedded address, because the
encoder drops the empty label after the final dot and the echoed question
name then re-parses as "a". -/
theorem C4_counterexample :
    parseReply [97, 46] 1 (synthResponse 5 [97, 46] 1 [1, 2, 3, 4]) = POut.err ∧
    POut.err ≠ POut.ok [word32 1 2 3 4] := by
  decide

/-- C4 witness: the amended round trip applied to the one-label host name
"a". -/
theorem C4_witness :
    parseReply (dotJoin [[97]]) 1 (synthResponse 3 (dotJoin [[97]]) 1 [93, 184, 216, 34]) =
      POut.ok [word32 93 184 216 34] :=
  (C4_round_trip [[97]] (by simp [GoodLabels]) (by decide)).1 3 93 184 216 34

/-- C5: the reply parser's header validation in source order — too-short
input, QR flag bit, response code (3 mapping to `NO_SUCH_HOST`, any other
nonzero code to `DNS_ERROR`), question count exactly one, and answer count
zero mapping to `NO_SUCH_HOST` — each determined by the header bytes alone,
for every body, host name and record type, hence before any question name
or answer record is examined. -/
theorem C5_header_checks :
    (∀ (h : List Nat) (rt : Nat) (buf : List Nat), buf.length < 12 →
        parseReply h rt buf = POut.err) ∧
    (∀ (h : List Nat) (rt i0 i1 f0 f1 q0 q1 a0 a1 n0 n1 r0 r1 : Nat) (body : List Nat),
        (f0 * 256 + f1) &&& 0x8000 = 0 →
        parseReply h rt (i0 :: i1 :: f0 :: f1 :: q0 :: q1 :: a0 :: a1 :: n0 :: n1 :: r0 :: r1 :: body) =
          POut.err) ∧
    (∀ (h : List Nat) (rt i0 i1 f0 f1 q0 q1 a0 a1 n0 n1 r0 r1 : Nat) (body : List Nat),
        (f0 * 256 + f1) &&& 0x8000 ≠ 0 → (f0 * 256 + f1) &&& 0xf = 3 →
        parseReply h rt (i0 :: i1 :: f0 :: f1 :: q0 :: q1 :: a0 :: a1 :: n0 :: n1 :: r0 :: r1 :: body) =
          POut.noSuchHost) ∧
    (∀ (h : List Nat) (rt i0 i1 f0 f1 q0 q1 a0 a1 n0 n1 r0 r1 : Nat) (body : List Nat),
        (f0 * 256 + f1) &&& 0x8000 ≠ 0 → (f0 * 256 + f1) &&& 0xf ≠ 0 →
        (f0 * 256 + f1) &&& 0xf ≠ 3 →
        parseReply h rt (i0 :: i1 :: f0 :: f1 :: q0 :: q1 :: a0 :: a1 :: n0 :: n1 :: r0 :: r1 :: body) =
          POut.err) ∧
    (∀ (h : List Nat) (rt i0 i1 f0 f1 q0 q1 a0 a1 n0 n1 r0 r1 : Nat) (body : List Nat),
        (f0 * 256 + f1) &&& 0x8000 ≠ 0 → (f0 * 256 + f1) &&& 0xf = 0 →
        q0 * 256 + q1 ≠ 1 →
        parseReply h rt (i0 :: i1 :: f0 :: f1 :: q0 :: q1 :: a0 :: a1 :: n0 :: n1 :: r0 :: r1 :: body) =
          POut.err) ∧
    (∀ (h : List Nat) (rt i0 i1 f0 f1 q0 q1 n0 n1 r0 r1 : Nat) (body : List Nat),
        (f0 * 256 + f1) &&& 0x8000 ≠ 0 → (f0 * 256 + f1) &&& 0xf = 0 →
        q0 * 256 + q1 = 1 →
        parseReply h rt (i0 :: i1 :: f0 :: f1 :: q0 :: q1 :: 0 :: 0 :: n0 :: n1 :: r0 :: r1 :: body) =
          POut.noSuchHost) := by
  refine ⟨?_, ?_, ?_, ?_, ?_, ?_⟩
  · intro h rt buf hlen
    rcases buf with _ | ⟨i0, _ | ⟨i1, _ | ⟨f0, _ | ⟨f1, _ | ⟨q0, _ | ⟨q1, _ | ⟨a0, _ | ⟨a1, _ | ⟨n0, _ | ⟨n1, _ | ⟨r0, _ | ⟨r1, body⟩⟩⟩⟩⟩⟩⟩⟩⟩⟩⟩⟩ <;>
      first
        | rfl
        | (exfalso; simp only [List.length_cons] at hlen; omega)
  · intro h rt i0 i1 f0 f1 q0 q1 a0 a1 n0 n1 r0 r1 body hqr
    simp only [parseReply]
    rw [if_pos hqr]
  · intro h rt i0 i1 f0 f1 q0 q1 a0 a1 n0 n1 r0 r1 body hqr hrc
    simp only [parseReply]
    rw [if_neg hqr, if_pos (show (f0 * 256 + f1) &&& 0xf ≠ 0 by rw [hrc]; decide), if_pos hrc]
  · intro h rt i0 i1 f0 f1 q0 q1 a0 a1 n0 n1 r0 r1 body hqr hrc0 hrc3
    simp only [parseReply]
    rw [if_neg hqr, if_pos hrc0, if_neg hrc3]
  · intro h rt i0 i1 f0 f1 q0 q1 a0 a1 n0 n1 r0 r1 body hqr hrc0 hq
    simp only [parseReply]
    rw [if_neg hqr, if_neg (not_not_intro hrc0), if_pos hq]
  · intro h rt i0 i1 f0 f1 q0 q1 n0 n1 r0 r1 body hqr hrc0 hq
    simp only [parseReply]
    rw [if_neg hqr, if_neg (not_not_intro hrc0), if_neg (not_not_intro hq)]
    simp

/-- C5 witness: each header check exercised at a concrete packet. -/
theorem C5_witness :
    parseReply [] 1 [0, 0] = POut.err ∧
    parseReply [] 1 [9, 9, 0, 0, 0, 1, 0, 1, 0, 0, 0, 0] = POut.err ∧
    parseReply [] 1 [9, 9, 0x80, 3, 0, 1, 0, 1, 0, 0, 0, 0] = POut.noSuchHost ∧
    parseReply [] 1 [9, 9, 0x80, 2, 0, 1, 0, 1, 0, 0, 0, 0] = POut.err ∧
    parseReply [] 1 [9, 9, 0x80, 0, 0, 2, 0, 1, 0, 0, 0, 0] = POut.err ∧
    parseReply [] 1 [9, 9, 0x80, 0, 0, 1, 0, 0, 0, 0, 0, 0] = POut.noSuchHost :=
  ⟨C5_header_checks.1 [] 1 [0, 0] (by decide),
   C5_header_checks.2.1 [] 1 9 9 0 0 0 1 0 1 0 0 0 0 [] (by decide),
   C5_header_checks.2.2.1 [] 1 9 9 0x80 3 0 1 0 1 0 0 0 0 [] (by decide) (by decide),
   C5_header_checks.2.2.2.1 [] 1 9 9 0x80 2 0 1 0 1 0 0 0 0 [] (by decide) (by decide) (by decide),
   C5_header_checks.2.2.2.2.1 [] 1 9 9 0x80 0 0 2 0 1 0 0 0 0 [] (by decide) (by decide) (by decide),
   C5_header_checks.2.2.2.2.2 [] 1 9 9 0x80 0 0 1 0 0 0 0 [] (by decide) (by decide) (by decide)⟩

/-- C6 (code bug): at the 2-byte host name "a." (bytes 97, 46) the encoder
writes only 19 bytes into the buffer while the `packetSize` it computes and
passes to `socket.Send` is `18 + 2 = 20`, so the source's own
`ASSERT(size_t(p - buf.Begin()) == packetSize)` is violated and the last
sent byte is uninitialized. -/
theorem C6_encode_size_mismatch :
    (encodeQueryPacket 0 [97, 46] 1).length = 19 ∧ dnsPacketSize [97, 46] = 20 := by
  decide

/-- C9: the two class bytes of an answer resource record are skipped
without validation — the decoder accepts the record and returns its address
for every value of those two bytes — while the echoed question's class is
required to equal 1 (a question class of 2 is rejected with `DNS_ERROR`). -/
theorem C9_answer_class_unchecked :
    (∀ (c0 c1 : Nat),
        parseReply [97] 1
            ([0, 0, 0x80, 0, 0, 1, 0, 1, 0, 0, 0, 0] ++ encodeQuestion [97] ++ [0, 1, 0, 1] ++
              ([0xc0, 12] ++ [0, 1] ++ [c0, c1] ++ [0, 0, 0, 0] ++ [0, 4] ++ [93, 184, 216, 34])) =
          POut.ok [word32 93 184 216 34]) ∧
    parseReply [97] 1
        ([0, 0, 0x80, 0, 0, 1, 0, 1, 0, 0, 0, 0] ++ encodeQuestion [97] ++ [0, 1, 0, 2] ++
          ([0xc0, 12] ++ [0, 1] ++ [0, 1] ++ [0, 0, 0, 0] ++ [0, 4] ++ [93, 184, 216, 34])) =
      POut.err := by
  exact ⟨fun c0 c1 => rfl, by decide⟩

/-- On the failure exits of the host-name parser the returned host name is
the empty string, regardless of what had been accumulated. -/
theorem parseHostAux_fails_empty (f : Nat) : ∀ (input acc : List Nat), input.length < f →
    parseFailsAux f input = true → (parseHostAux f input acc).1 = [] := by
  induction f with
  | zero => intro input acc h _; omega
  | succ f ih =>
    intro input acc hl hf
    match input with
    | [] => rfl
    | len :: rest =>
      simp only [List.length_cons] at hl
      simp only [parseFailsAux] at hf
      simp only [parseHostAux]
      by_cases h0 : len = 0
      · rw [if_pos h0] at hf; exact absurd hf (by decide)
      · rw [if_neg h0] at hf
        rw [if_neg h0]
        by_cases hlen : rest.length < len
        · rw [if_pos hlen]
        · rw [if_neg hlen] at hf ⊢
          exact ih _ _ (by simp only [List.length_drop]; omega) hf

/-- On a non-failing run that starts at a nonzero length byte (or with a
nonempty accumulator) the parsed host name is nonempty. -/
theorem parseHostAux_no_fail_ne (f : Nat) : ∀ (input acc : List Nat), input.length < f →
    parseFailsAux f input = false →
    (acc ≠ [] ∨ ∃ len rest, input = len :: rest ∧ len ≠ 0) →
    (parseHostAux f input acc).1 ≠ [] := by
  induction f with
  | zero => intro input acc h _ _; omega
  | succ f ih =>
    intro input acc hl hf hd
    match input with
    | [] => simp [parseFailsAux] at hf
    | len :: rest =>
      simp only [List.length_cons] at hl
      simp only [parseFailsAux] at hf
      simp only [parseHostAux]
      by_cases h0 : len = 0
      · rw [if_pos h0]
        rcases hd with hacc | ⟨len', rest', heq, hne⟩
        · exact hacc
        · injection heq with h1 h2
          exact absurd (h1 ▸ h0) hne
      · rw [if_neg h0] at hf ⊢
        by_cases hlen : rest.length < len
        · rw [if_pos hlen] at hf; exact absurd hf (by decide)
        · rw [if_neg hlen] at hf ⊢
          apply ih _ _ (by simp only [List.length_drop]; omega) hf
          left
          intro hcon
          have h2 : rest.take len = [] := (List.append_eq_nil.mp hcon).2
          have h3 : (rest.take len).length = 0 := by rw [h2]; rfl
          rw [List.length_take] at h3
          omega

/-- C10: the host-name label parser returns the empty string on every
failure exit; the empty string is also the successful parse of the root
name (a single zero byte); the parse result is empty exactly on a failure
or a root name; consequently, when the question name is malformed, the
engine's comparison of the parsed name against a request's host name
succeeds exactly for requests whose host name is empty. -/
theorem C10_failure_is_empty_name :
    (∀ (rest : List Nat), parseHost (0 :: rest) [] = ([], rest)) ∧
    (∀ (input : List Nat), parseFails input = true → (parseHost input []).1 = []) ∧
    (∀ (input : List Nat),
        (parseHost input []).1 = [] ↔
          (parseFails input = true ∨ ∃ rest, input = 0 :: rest)) ∧
    (∀ (hostName input : List Nat), parseFails input = true →
        ((parseHost input []).1 = hostName ↔ hostName = [])) := by
  have hb : ∀ (input : List Nat), parseFails input = true → (parseHost input []).1 = [] :=
    fun input hf => parseHostAux_fails_empty _ input [] (Nat.lt_succ_self _) hf
  have ha : ∀ (rest : List Nat), parseHost (0 :: rest) [] = ([], rest) := by
    intro rest
    rw [parseHost_cons]
    simp
  refine ⟨ha, hb, ?_, ?_⟩
  · intro input
    constructor
    · intro hempty
      by_cases hf : parseFails input = true
      · exact Or.inl hf
      · have hf' : parseFails input = false := by
          cases hfc : parseFails input
          · rfl
          · exact absurd hfc hf
        right
        cases input with
        | nil => exact absurd rfl hf
        | cons len rest =>
          by_cases h0 : len = 0
          · exact ⟨rest, by rw [h0]⟩
          · exact absurd hempty
              (parseHostAux_no_fail_ne _ (len :: rest) [] (Nat.lt_succ_self _) hf'
                (Or.inr ⟨len, rest, rfl, h0⟩))
    · rintro (hf | ⟨rest, rfl⟩)
      · exact hb input hf
      · rw [ha rest]
  · intro hostName input hf
    constructor
    · intro hh
      rw [hb input hf] at hh
      exact hh.symm
    · intro hh
      rw [hb input hf, hh]

/-- C10 witness: a label length of 3 with only one byte remaining is a
failure exit, so the parsed name matches a request exactly when that
request's host name is empty; here against the nonempty host name "a". -/
theorem C10_witness :
    ((parseHost [3, 97] []).1 = [97] ↔ ([97] : List Nat) = []) :=
  C10_failure_is_empty_name.2.2.2 [97] [3, 97] (by decide)

/-- The last key of a nonempty list is a member of it. -/
theorem lastKey_mem : ∀ (keys : List Nat), keys ≠ [] → lastKey keys ∈ keys := by
  intro keys
  induction keys with
  | nil => intro h; exact absurd rfl h
  | cons a t ih =>
    intro _
    match t with
    | [] => simp [lastKey]
    | b :: t' =>
      show lastKey (b :: t') ∈ a :: b :: t'
      exact List.mem_cons_of_mem a (ih (by simp))

/-- In an ascending list every key is at most the last key. -/
theorem le_lastKey : ∀ (keys : List Nat), List.Pairwise (· < ·) keys →
    ∀ k ∈ keys, k ≤ lastKey keys := by
  intro keys
  induction keys with
  | nil => intro _ k hk; simp at hk
  | cons a t ih =>
    intro hp k hk
    match t with
    | [] =>
      simp at hk
      simp [lastKey, hk]
    | b :: t' =>
      show k ≤ lastKey (b :: t')
      have hp' := List.pairwise_cons.mp hp
      rcases List.mem_cons.mp hk with rfl | hk'
      · have hmem : lastKey (b :: t') ∈ b :: t' := lastKey_mem _ (by simp)
        exact le_of_lt (hp'.1 _ hmem)
      · exact ih hp'.2 k hk'

/-- A successful adjacent-gap scan returns the successor of a used key,
strictly below another used key, and never a used key itself. -/
theorem scanGap_spec : ∀ (keys : List Nat), List.Pairwise (· < ·) keys →
    ∀ v, scanGap keys = some v →
      (∃ k1 ∈ keys, v = k1 + 1) ∧ (∃ k2 ∈ keys, v < k2) ∧ v ∉ keys := by
  intro keys
  induction keys with
  | nil => intro _ v h; simp [scanGap] at h
  | cons k1 t ih =>
    intro hp v h
    match t with
    | [] => simp [scanGap] at h
    | k2 :: t' =>
      simp only [scanGap] at h
      have hp1 := List.pairwise_cons.mp hp
      have hp2 : List.Pairwise (fun a b => a < b) (k2 :: t') := hp1.2
      have hk12 : k1 < k2 := hp1.1 k2 (by simp)
      by_cases hgap : k2 - k1 > 1
      · rw [if_pos hgap] at h
        injection h with hv
        subst hv
        refine ⟨⟨k1, by simp, rfl⟩, ⟨k2, by simp, by omega⟩, ?_⟩
        intro hmem
        rcases List.mem_cons.mp hmem with h1 | hmem2
        · omega
        rcases List.mem_cons.mp hmem2 with h2 | hmem3
        · omega
        · have := (List.pairwise_cons.mp hp2).1 _ hmem3
          omega
      · rw [if_neg hgap] at h
        obtain ⟨⟨ka, hka, hva⟩, ⟨kb, hkb, hvb⟩, hnm⟩ := ih hp2 v h
        have hk2ka : k2 ≤ ka := by
          rcases List.mem_cons.mp hka with rfl | hka'
          · exact le_refl _
          · exact le_of_lt ((List.pairwise_cons.mp hp2).1 _ hka')
        refine ⟨⟨ka, List.mem_cons_of_mem _ hka, hva⟩,
          ⟨kb, List.mem_cons_of_mem _ hkb, hvb⟩, ?_⟩
        intro hmem
        rcases List.mem_cons.mp hmem with h1 | hm2
        · omega
        · exact hnm hm2

/-- When the gap scan finds nothing, consecutive keys differ by exactly
one, so the last key is the first key plus the length minus one. -/
theorem scanGap_none_last : ∀ (keys : List Nat), List.Pairwise (· < ·) keys →
    scanGap keys = none → keys ≠ [] →
      lastKey keys + 1 = keys.headI + keys.length := by
  intro keys
  induction keys with
  | nil => intro _ _ h; exact absurd rfl h
  | cons a s ih =>
    intro hp hnone _
    match s with
    | [] => simp [lastKey]
    | k2 :: t' =>
      simp only [scanGap] at hnone
      have hp1 := List.pairwise_cons.mp hp
      have hk12 : a < k2 := hp1.1 k2 (by simp)
      by_cases hgap : k2 - a > 1
      · rw [if_pos hgap] at hnone
        exact absurd hnone (by simp)
      · rw [if_neg hgap] at hnone
        have hstep : k2 = a + 1 := by omega
        have := ih hp1.2 hnone (by simp)
        show lastKey (k2 :: t') + 1 = a + (k2 :: t').length + 1
        simp only [List.headI, List.length_cons] at this ⊢
        omega

/-- A nodup list of 65536 naturals below 65536 contains every natural
below 65536. -/
theorem all_mem_of_nodup_length (keys : List Nat) (hnd : keys.Nodup)
    (hb : ∀ k ∈ keys, k < 65536) (hlen : keys.length = 65536) :
    ∀ v, v < 65536 → v ∈ keys := by
  intro v hv
  by_contra hnm
  have hsub : keys.toFinset ⊆ Finset.range 65536 := by
    intro x hx
    exact Finset.mem_range.mpr (hb x (List.mem_toFinset.mp hx))
  have hcard : keys.toFinset.card = 65536 := by
    rw [List.toFinset_card_of_nodup hnd, hlen]
  have heq : keys.toFinset = Finset.range 65536 :=
    Finset.eq_of_subset_of_card_le hsub (by rw [hcard, Finset.card_range])
  have : v ∈ keys.toFinset := by
    rw [heq]
    exact Finset.mem_range.mpr hv
  exact hnm (List.mem_toFinset.mp this)

/-- C2: over the ascending distinct key list of the transaction-ID
registry (all keys 16-bit), `FindFreeId` fails exactly when all 65536 IDs
are in use; a returned ID is a fresh 16-bit value not in the registry, so
adding it keeps all outstanding transaction IDs pairwise distinct; and the
branch order is: 0 on empty, smallest minus one if the smallest is
nonzero, largest plus one if the largest is not 65535, else the first
ascending adjacent gap. -/
theorem C2_find_free_id (keys : List Nat) (hs : List.Pairwise (· < ·) keys)
    (hb : ∀ k ∈ keys, k < 65536) :
    (findFreeId keys = none ↔ keys.length = 65536) ∧
    (∀ v, findFreeId keys = some v → v < 65536 ∧ v ∉ keys ∧ (v :: keys).Nodup) ∧
    (keys = [] → findFreeId keys = some 0) ∧
    (∀ k0 t, keys = k0 :: t → k0 ≠ 0 → findFreeId keys = some (k0 - 1)) ∧
    (∀ k0 t, keys = k0 :: t → k0 = 0 → lastKey keys ≠ 65535 →
        findFreeId keys = some (lastKey keys + 1)) := by
  have hnd : keys.Nodup := hs.imp (fun h => Nat.ne_of_lt h)
  have hfresh : ∀ v, findFreeId keys = some v → v < 65536 ∧ v ∉ keys ∧ (v :: keys).Nodup := by
    intro v hv
    match keys, hs, hb, hnd with
    | [], _, _, _ =>
      injection hv with hv0
      subst hv0
      exact ⟨by omega, by simp, by simp⟩
    | k0 :: t, hs, hb, hnd =>
      simp only [findFreeId] at hv
      by_cases h0 : k0 ≠ 0
      · rw [if_pos h0] at hv
        injection hv with hv0
        subst hv0
        have hhead : ∀ k ∈ k0 :: t, k0 ≤ k := by
          intro k hk
          rcases List.mem_cons.mp hk with rfl | hk'
          · exact le_refl _
          · exact le_of_lt ((List.pairwise_cons.mp hs).1 _ hk')
        have hk0 : k0 < 65536 := hb k0 (by simp)
        have hnm : k0 - 1 ∉ k0 :: t := by
          intro hmem
          have := hhead _ hmem
          omega
        exact ⟨by omega, hnm, List.nodup_cons.mpr ⟨hnm, hnd⟩⟩
      · rw [if_neg h0] at hv
        by_cases hlast : lastKey (k0 :: t) ≠ 65535
        · rw [if_pos hlast] at hv
          injection hv with hv0
          subst hv0
          have hmax := le_lastKey (k0 :: t) hs
          have hmem : lastKey (k0 :: t) ∈ k0 :: t := lastKey_mem _ (by simp)
          have hlt : lastKey (k0 :: t) < 65536 := hb _ hmem
          have hnm : lastKey (k0 :: t) + 1 ∉ k0 :: t := by
            intro hmem2
            have := hmax _ hmem2
            omega
          exact ⟨by omega, hnm, List.nodup_cons.mpr ⟨hnm, hnd⟩⟩
        · rw [if_neg hlast] at hv
          obtain ⟨-, ⟨k2, hk2, hvk2⟩, hnm⟩ := scanGap_spec _ hs v hv
          exact ⟨by have := hb k2 hk2; omega, hnm, List.nodup_cons.mpr ⟨hnm, hnd⟩⟩
  refine ⟨⟨?_, ?_⟩, hfresh, ?_, ?_, ?_⟩
  · intro hnone
    match keys, hs, hb with
    | [], _, _ => exact absurd hnone (by simp [findFreeId])
    | k0 :: t, hs, hb =>
      simp only [findFreeId] at hnone
      by_cases h0 : k0 ≠ 0
      · rw [if_pos h0] at hnone
        exact absurd hnone (by simp)
      · rw [if_neg h0] at hnone
        by_cases hlast : lastKey (k0 :: t) ≠ 65535
        · rw [if_pos hlast] at hnone
          exact absurd hnone (by simp)
        · rw [if_neg hlast] at hnone
          have hchain := scanGap_none_last (k0 :: t) hs hnone (by simp)
          have h00 : k0 = 0 := by omega
          have h65 : lastKey (k0 :: t) = 65535 := by omega
          simp only [List.headI, List.length_cons] at hchain ⊢
          omega
  · intro hlen
    cases hv : findFreeId keys with
    | none => rfl
    | some v =>
      obtain ⟨hv1, hv2, -⟩ := hfresh v hv
      exact absurd (all_mem_of_nodup_length keys hnd hb hlen v hv1) hv2
  · intro h
    subst h
    rfl
  · intro k0 t heq h0
    subst heq
    simp only [findFreeId]
    rw [if_pos h0]
  · intro k0 t heq h0 hlast
    subst heq
    simp only [findFreeId]
    rw [if_neg (not_not_intro h0), if_pos hlast]

/-- C2 witness: with IDs 0, 1, 3 outstanding the allocator returns 4 (the
largest-plus-one branch precedes the gap scan), a fresh 16-bit ID. -/
theorem C2_witness :
    4 < 65536 ∧ 4 ∉ [0, 1, 3] ∧ ((4 : Nat) :: [0, 1, 3]).Nodup :=
  (C2_find_free_id [0, 1, 3] (by decide) (by decide)).2.1 4 rfl

/-- One outstanding resolution request, the `dns::Resolver` record (source
lines 118-134).  The caller handle (`hnr`) is the key under which the
record is stored, so it is not duplicated here; `inA` says which of the two
time multimaps the record's `timeMap` pointer designates (`resolversByTime1`
when true); `sent` models `sendIter == sendList.end()`, i.e. the request is
no longer queued for sending. -/
structure Resolver where
  hostName : List Nat
  recordType : Nat
  id : Nat
  expiry : Nat
  inA : Bool
  sent : Bool
deriving DecidableEq, Repr

/-- The registry state owned by `LookupThread`: the caller-handle map
`resolversMap`, the transaction-ID map `idMap` (id, handle), the two expiry
multimaps `resolversByTime1`/`resolversByTime2` as ascending (expiry tick,
handle) lists, the send queue as a handle list, which of the two time maps
the `timeMap1` pointer currently designates, and the wraparound-detection
flag `lastTicksInFirstHalf`. -/
structure DnsState where
  resolversMap : List (Nat × Resolver)
  idMap : List (Nat × Nat)
  mapA : List (Nat × Nat)
  mapB : List (Nat × Nat)
  sendList : List Nat
  curIsA : Bool
  lastTicksInFirstHalf : Bool
deriving DecidableEq, Repr

/-- Association-list lookup by key, as `std::map::find`. -/
def alookup {α : Type} : Nat → List (Nat × α) → Option α
  | _, [] => none
  | k, (k', v) :: t => if k' = k then some v else alookup k t

/-- Erase the first entry with the given key, as erasing the iterator
returned by `std::map::find`. -/
def aeraseKey {α : Type} : Nat → List (Nat × α) → List (Nat × α)
  | _, [] => []
  | k, (k', v) :: t => if k' = k then t else (k', v) :: aeraseKey k t

/-- Replace the value of the first entry with the given key (in-place
mutation through the stored pointer). -/
def aupdate {α : Type} : Nat → α → List (Nat × α) → List (Nat × α)
  | _, _, [] => []
  | k, v, (k', v') :: t => if k' = k then (k, v) :: t else (k', v') :: aupdate k v t

/-- Erase the first occurrence of an element, as erasing through a stored
iterator designating that exact entry. -/
def eraseFirst {α : Type} [DecidableEq α] (x : α) : List α → List α
  | [] => []
  | y :: t => if y = x then t else y :: eraseFirst x t

/-- `LookupThread::RemoveResolver` (source lines 536-559): look up by
caller handle; if absent return nothing and change nothing; otherwise
erase the caller-handle entry, the send-queue entry when the request is
still unsent, the (expiry, handle) entry from the time map the record
designates, and the (id, handle) entry, returning ownership of the
record. -/
def removeResolver (st : DnsState) (h : Nat) : Option Resolver × DnsState :=
  match alookup h st.resolversMap with
  | none => (none, st)
  | some r =>
    (some r,
     { st with
       resolversMap := aeraseKey h st.resolversMap,
       sendList := if r.sent then st.sendList else eraseFirst h st.sendList,
       mapA := if r.inA then eraseFirst (r.expiry, h) st.mapA else st.mapA,
       mapB := if r.inA then st.mapB else eraseFirst (r.expiry, h) st.mapB,
       idMap := eraseFirst (r.id, h) st.idMap })

/-- The transaction-ID entries a well-formed registry must carry: one
(id, handle) pair per outstanding request. -/
def idEntries (m : List (Nat × Resolver)) : List (Nat × Nat) :=
  m.map (fun p => (p.2.id, p.1))

/-- The expiry entries that must live in `resolversByTime1`. -/
def timeEntriesA (m : List (Nat × Resolver)) : List (Nat × Nat) :=
  (m.filter (fun p => p.2.inA)).map (fun p => (p.2.expiry, p.1))

/-- The expiry entries that must live in `resolversByTime2`. -/
def timeEntriesB (m : List (Nat × Resolver)) : List (Nat × Nat) :=
  (m.filter (fun p => !p.2.inA)).map (fun p => (p.2.expiry, p.1))

/-- The handles that must sit in the send queue: exactly the unsent
requests. -/
def sendEntries (m : List (Nat × Resolver)) : List Nat :=
  (m.filter (fun p => !p.2.sent)).map Prod.fst

/-- Well-formedness of the registry: caller handles and transaction IDs
are unique, and each of the transaction-ID map, the two expiry maps and
the send queue holds exactly one entry per request it is responsible for
(a permutation of the per-request entries), with the expiry maps in
ascending key order.  This is the cross-index reachability invariant of
the specification. -/
def WF (st : DnsState) : Prop :=
  (st.resolversMap.map Prod.fst).Nodup ∧
  (st.idMap.map Prod.fst).Nodup ∧
  st.idMap.Perm (idEntries st.resolversMap) ∧
  st.mapA.Perm (timeEntriesA st.resolversMap) ∧
  st.mapB.Perm (timeEntriesB st.resolversMap) ∧
  st.sendList.Perm (sendEntries st.resolversMap) ∧
  List.Pairwise (fun x y => x.1 ≤ y.1) st.mapA ∧
  List.Pairwise (fun x y => x.1 ≤ y.1) st.mapB

instance (st : DnsState) : Decidable (WF st) := by
  unfold WF
  infer_instance

theorem eraseFirst_sublist {α : Type} [DecidableEq α] (x : α) :
    ∀ (l : List α), List.Sublist (eraseFirst x l) l := by
  intro l
  induction l with
  | nil => simp [eraseFirst]
  | cons y t ih =>
    simp only [eraseFirst]
    by_cases h : y = x
    · rw [if_pos h]
      exact (List.Sublist.refl t).cons y
    · rw [if_neg h]
      exact ih.cons₂ y

theorem eraseFirst_perm {α : Type} [DecidableEq α] (x : α) :
    ∀ (l : List α), x ∈ l → l.Perm (x :: eraseFirst x l) := by
  intro l
  induction l with
  | nil => intro h; simp at h
  | cons y t ih =>
    intro hx
    simp only [eraseFirst]
    by_cases h : y = x
    · subst h
      rw [if_pos rfl]
    · rw [if_neg h]
      have hxt : x ∈ t := by
        rcases List.mem_cons.mp hx with rfl | h2
        · exact absurd rfl h
        · exact h2
      exact List.Perm.trans ((ih hxt).cons y) (List.Perm.swap x y _)

theorem perm_eraseFirst {α : Type} [DecidableEq α] (x : α) (l e : List α)
    (h : l.Perm (x :: e)) : (eraseFirst x l).Perm e := by
  have hx : x ∈ l := h.mem_iff.mpr (by simp)
  exact List.Perm.cons_inv ((eraseFirst_perm x l hx).symm.trans h)

theorem alookup_mem {α : Type} (k : Nat) (v : α) : ∀ (l : List (Nat × α)),
    alookup k l = some v → (k, v) ∈ l := by
  intro l
  induction l with
  | nil => intro h; simp [alookup] at h
  | cons p t ih =>
    intro h
    obtain ⟨k', v'⟩ := p
    simp only [alookup] at h
    by_cases hk : k' = k
    · rw [if_pos hk] at h
      injection h with h2
      subst hk
      subst h2
      simp
    · rw [if_neg hk] at h
      exact List.mem_cons_of_mem _ (ih h)

theorem alookup_eq_none {α : Type} (k : Nat) : ∀ (l : List (Nat × α)),
    k ∉ l.map Prod.fst → alookup k l = none := by
  intro l
  induction l with
  | nil => intro _; rfl
  | cons p t ih =>
    intro hk
    obtain ⟨k', v'⟩ := p
    simp only [List.map_cons, List.mem_cons] at hk
    push_neg at hk
    simp only [alookup]
    rw [if_neg (fun hc => hk.1 hc.symm)]
    exact ih hk.2

theorem mem_of_alookup_ne_none {α : Type} (k : Nat) (l : List (Nat × α))
    (h : alookup k l ≠ none) : k ∈ l.map Prod.fst := by
  by_contra hk
  exact h (alookup_eq_none k l hk)

theorem aeraseKey_eq_eraseFirst {α : Type} [DecidableEq α] (k : Nat) (v : α) :
    ∀ (l : List (Nat × α)), alookup k l = some v → aeraseKey k l = eraseFirst (k, v) l := by
  intro l
  induction l with
  | nil => intro h; simp [alookup] at h
  | cons p t ih =>
    intro h
    obtain ⟨k', v'⟩ := p
    simp only [alookup] at h
    simp only [aeraseKey, eraseFirst]
    by_cases hk : k' = k
    · rw [if_pos hk] at h
      injection h with h2
      subst hk
      subst h2
      rw [if_pos rfl, if_pos rfl]
    · rw [if_neg hk] at h
      rw [if_neg hk, if_neg (fun hc => hk (congrArg Prod.fst hc)), ih h]

theorem keys_aupdate {α : Type} (k : Nat) (v : α) : ∀ (l : List (Nat × α)),
    (aupdate k v l).map Prod.fst = l.map Prod.fst := by
  intro l
  induction l with
  | nil => rfl
  | cons p t ih =>
    obtain ⟨k', v'⟩ := p
    simp only [aupdate]
    by_cases hk : k' = k
    · rw [if_pos hk]
      simp [hk]
    · rw [if_neg hk]
      simp [ih]

theorem alookup_aupdate {α : Type} (k : Nat) (v : α) : ∀ (l : List (Nat × α)) (v₀ : α),
    alookup k l = some v₀ → alookup k (aupdate k v l) = some v := by
  intro l
  induction l with
  | nil => intro v₀ h; simp [alookup] at h
  | cons p t ih =>
    intro v₀ h
    obtain ⟨k', v'⟩ := p
    simp only [alookup] at h
    simp only [aupdate]
    by_cases hk : k' = k
    · rw [if_pos hk]
      simp [alookup]
    · rw [if_neg hk] at h
      rw [if_neg hk]
      simp only [alookup]
      rw [if_neg hk]
      exact ih v₀ h

theorem snd_mem_keys_timeEntriesA (m : List (Nat × Resolver)) :
    ∀ p ∈ timeEntriesA m, p.2 ∈ m.map Prod.fst := by
  intro p hp
  obtain ⟨q, hq, rfl⟩ := List.mem_map.mp hp
  exact List.mem_map_of_mem Prod.fst (List.mem_of_mem_filter hq)

theorem snd_mem_keys_timeEntriesB (m : List (Nat × Resolver)) :
    ∀ p ∈ timeEntriesB m, p.2 ∈ m.map Prod.fst := by
  intro p hp
  obtain ⟨q, hq, rfl⟩ := List.mem_map.mp hp
  exact List.mem_map_of_mem Prod.fst (List.mem_of_mem_filter hq)

theorem mem_keys_sendEntries (m : List (Nat × Resolver)) :
    ∀ x ∈ sendEntries m, x ∈ m.map Prod.fst := by
  intro x hx
  obtain ⟨q, hq, rfl⟩ := List.mem_map.mp hx
  exact List.mem_map_of_mem Prod.fst (List.mem_of_mem_filter hq)

theorem mem_unique_of_nodup_keys {α : Type} :
    ∀ (l : List (Nat × α)), (l.map Prod.fst).Nodup →
      ∀ (k : Nat) (v₁ v₂ : α), (k, v₁) ∈ l → (k, v₂) ∈ l → v₁ = v₂ := by
  intro l
  induction l with
  | nil => intro _ k v₁ v₂ h1 _; simp at h1
  | cons p t ih =>
    intro hnd k v₁ v₂ h1 h2
    obtain ⟨k', v'⟩ := p
    simp only [List.map_cons, List.nodup_cons] at hnd
    rcases List.mem_cons.mp h1 with he1 | hm1 <;> rcases List.mem_cons.mp h2 with he2 | hm2
    · injection he1 with a1 b1
      injection he2 with a2 b2
      exact b1.trans b2.symm
    · injection he1 with a1 b1
      exact absurd (a1 ▸ List.mem_map_of_mem Prod.fst hm2) hnd.1
    · injection he2 with a2 b2
      exact absurd (a2 ▸ List.mem_map_of_mem Prod.fst hm1) hnd.1
    · exact ih hnd.2 k v₁ v₂ hm1 hm2

/-- Behaviour and invariant preservation of `RemoveResolver` when the
caller handle is present: the record is returned, every index loses
exactly that request's entry, and the registry invariant is preserved. -/
theorem removeResolver_found (st : DnsState) (h : Nat) (r : Resolver) (hwf : WF st)
    (hr : alookup h st.resolversMap = some r) :
    (removeResolver st h).1 = some r ∧
    (removeResolver st h).2.resolversMap = eraseFirst (h, r) st.resolversMap ∧
    st.resolversMap.Perm ((h, r) :: (removeResolver st h).2.resolversMap) ∧
    (removeResolver st h).2.idMap = eraseFirst (r.id, h) st.idMap ∧
    (removeResolver st h).2.mapA =
      (if r.inA then eraseFirst (r.expiry, h) st.mapA else st.mapA) ∧
    (removeResolver st h).2.mapB =
      (if r.inA then st.mapB else eraseFirst (r.expiry, h) st.mapB) ∧
    (removeResolver st h).2.sendList =
      (if r.sent then st.sendList else eraseFirst h st.sendList) ∧
    (removeResolver st h).2.curIsA = st.curIsA ∧
    (removeResolver st h).2.lastTicksInFirstHalf = st.lastTicksInFirstHalf ∧
    WF (removeResolver st h).2 ∧
    h ∉ (removeResolver st h).2.resolversMap.map Prod.fst ∧
    alookup h (removeResolver st h).2.resolversMap = none ∧
    alookup r.id (removeResolver st h).2.idMap = none ∧
    (∀ p ∈ (removeResolver st h).2.mapA, p.2 ≠ h) ∧
    (∀ p ∈ (removeResolver st h).2.mapB, p.2 ≠ h) ∧
    h ∉ (removeResolver st h).2.sendList := by
  obtain ⟨hknd, hidnd, hidp, hap, hbp, hsp, hsa, hsb⟩ := hwf
  have hmem : (h, r) ∈ st.resolversMap := alookup_mem _ _ _ hr
  have hperm : st.resolversMap.Perm ((h, r) :: eraseFirst (h, r) st.resolversMap) :=
    eraseFirst_perm _ _ hmem
  have hkeysperm : (st.resolversMap.map Prod.fst).Perm
      (h :: (eraseFirst (h, r) st.resolversMap).map Prod.fst) := by
    have := hperm.map Prod.fst
    simpa using this
  have hkeys' : (h :: (eraseFirst (h, r) st.resolversMap).map Prod.fst).Nodup :=
    hkeysperm.nodup hknd
  have hnotin : h ∉ (eraseFirst (h, r) st.resolversMap).map Prod.fst :=
    (List.nodup_cons.mp hkeys').1
  have hnd' : ((eraseFirst (h, r) st.resolversMap).map Prod.fst).Nodup :=
    (List.nodup_cons.mp hkeys').2
  have hrm : aeraseKey h st.resolversMap = eraseFirst (h, r) st.resolversMap :=
    aeraseKey_eq_eraseFirst h r _ hr
  have hstep : removeResolver st h =
      (some r,
       { st with
         resolversMap := eraseFirst (h, r) st.resolversMap,
         sendList := if r.sent then st.sendList else eraseFirst h st.sendList,
         mapA := if r.inA then eraseFirst (r.expiry, h) st.mapA else st.mapA,
         mapB := if r.inA then st.mapB else eraseFirst (r.expiry, h) st.mapB,
         idMap := eraseFirst (r.id, h) st.idMap }) := by
    simp only [removeResolver, hr, hrm]
  rw [hstep]
  have hidcons : st.idMap.Perm
      ((r.id, h) :: idEntries (eraseFirst (h, r) st.resolversMap)) := by
    refine hidp.trans ?_
    have := hperm.map (fun p => (p.2.id, p.1))
    simpa [idEntries] using this
  have hidp' : (eraseFirst (r.id, h) st.idMap).Perm
      (idEntries (eraseFirst (h, r) st.resolversMap)) :=
    perm_eraseFirst _ _ _ hidcons
  have hidkeys' : ((eraseFirst (r.id, h) st.idMap).map Prod.fst).Nodup :=
    List.Nodup.sublist ((eraseFirst_sublist _ _).map Prod.fst) hidnd
  have hidnotin : r.id ∉ (idEntries (eraseFirst (h, r) st.resolversMap)).map Prod.fst := by
    have hk2 : (st.idMap.map Prod.fst).Perm
        (r.id :: (idEntries (eraseFirst (h, r) st.resolversMap)).map Prod.fst) := by
      have := hidcons.map Prod.fst
      simpa using this
    exact (List.nodup_cons.mp (hk2.nodup hidnd)).1
  have hteA : st.mapA.Perm
      (if r.inA then (r.expiry, h) :: timeEntriesA (eraseFirst (h, r) st.resolversMap)
       else timeEntriesA (eraseFirst (h, r) st.resolversMap)) := by
    refine hap.trans ?_
    have := (hperm.filter (fun p => p.2.inA)).map (fun p => (p.2.expiry, p.1))
    by_cases hA : r.inA
    · rw [if_pos hA]
      simpa [timeEntriesA, List.filter_cons, hA] using this
    · rw [if_neg hA]
      simpa [timeEntriesA, List.filter_cons, hA] using this
  have hteB : st.mapB.Perm
      (if r.inA then timeEntriesB (eraseFirst (h, r) st.resolversMap)
       else (r.expiry, h) :: timeEntriesB (eraseFirst (h, r) st.resolversMap)) := by
    refine hbp.trans ?_
    have := (hperm.filter (fun p => !p.2.inA)).map (fun p => (p.2.expiry, p.1))
    by_cases hA : r.inA
    · rw [if_pos hA]
      simpa [timeEntriesB, List.filter_cons, hA] using this
    · rw [if_neg hA]
      simpa [timeEntriesB, List.filter_cons, hA] using this
  have hsend : st.sendList.Perm
      (if r.sent then sendEntries (eraseFirst (h, r) st.resolversMap)
       else h :: sendEntries (eraseFirst (h, r) st.resolversMap)) := by
    refine hsp.trans ?_
    have := (hperm.filter (fun p => !p.2.sent)).map Prod.fst
    by_cases hS : r.sent
    · rw [if_pos hS]
      simpa [sendEntries, List.filter_cons, hS] using this
    · rw [if_neg hS]
      simpa [sendEntries, List.filter_cons, hS] using this
  have hapA' : (if r.inA then eraseFirst (r.expiry, h) st.mapA else st.mapA).Perm
      (timeEntriesA (eraseFirst (h, r) st.resolversMap)) := by
    by_cases hA : r.inA
    · rw [if_pos hA]
      rw [if_pos hA] at hteA
      exact perm_eraseFirst _ _ _ hteA
    · rw [if_neg hA]
      rw [if_neg hA] at hteA
      exact hteA
  have hapB' : (if r.inA then st.mapB else eraseFirst (r.expiry, h) st.mapB).Perm
      (timeEntriesB (eraseFirst (h, r) st.resolversMap)) := by
    by_cases hA : r.inA
    · rw [if_pos hA]
      rw [if_pos hA] at hteB
      exact hteB
    · rw [if_neg hA]
      rw [if_neg hA] at hteB
      exact perm_eraseFirst _ _ _ hteB
  have hsend' : (if r.sent then st.sendList else eraseFirst h st.sendList).Perm
      (sendEntries (eraseFirst (h, r) st.resolversMap)) := by
    by_cases hS : r.sent
    · rw [if_pos hS]
      rw [if_pos hS] at hsend
      exact hsend
    · rw [if_neg hS]
      rw [if_neg hS] at hsend
      exact perm_eraseFirst _ _ _ hsend
  refine ⟨rfl, rfl, hperm, rfl, rfl, rfl, rfl, rfl, rfl, ?_, hnotin, ?_, ?_, ?_, ?_, ?_⟩
  · refine ⟨hnd', hidkeys', hidp', hapA', hapB', hsend', ?_, ?_⟩
    · show List.Pairwise (fun x y => x.1 ≤ y.1)
        (if r.inA then eraseFirst (r.expiry, h) st.mapA else st.mapA)
      by_cases hA : r.inA
      · rw [if_pos hA]
        exact List.Pairwise.sublist (eraseFirst_sublist _ _) hsa
      · rw [if_neg hA]
        exact hsa
    · show List.Pairwise (fun x y => x.1 ≤ y.1)
        (if r.inA then st.mapB else eraseFirst (r.expiry, h) st.mapB)
      by_cases hA : r.inA
      · rw [if_pos hA]
        exact hsb
      · rw [if_neg hA]
        exact List.Pairwise.sublist (eraseFirst_sublist _ _) hsb
  · exact alookup_eq_none _ _ hnotin
  · apply alookup_eq_none
    intro hmem2
    exact hidnotin ((hidp'.map Prod.fst).mem_iff.mp hmem2)
  · intro p hp hph
    have hmm : p ∈ timeEntriesA (eraseFirst (h, r) st.resolversMap) :=
      hapA'.mem_iff.mp hp
    have hsk := snd_mem_keys_timeEntriesA _ p hmm
    rw [hph] at hsk
    exact hnotin hsk
  · intro p hp hph
    have hmm : p ∈ timeEntriesB (eraseFirst (h, r) st.resolversMap) :=
      hapB'.mem_iff.mp hp
    have hsk := snd_mem_keys_timeEntriesB _ p hmm
    rw [hph] at hsk
    exact hnotin hsk
  · intro hmem2
    exact hnotin (mem_keys_sendEntries _ h (hsend'.mem_iff.mp hmem2))

/-- C7: `RemoveResolver` returns absent and changes nothing when the
caller handle has no outstanding request; otherwise, in one step, it
erases the caller-handle entry, the send-queue entry exactly when the
request is still unsent, the expiry-map entry, and the transaction-ID
entry, and returns ownership of the record — and the cross-index
invariant (each outstanding request reachable from exactly one entry of
each index) is preserved. -/
theorem C7_remove_protocol (st : DnsState) (h : Nat) (hwf : WF st) :
    (alookup h st.resolversMap = none → removeResolver st h = (none, st)) ∧
    (∀ r, alookup h st.resolversMap = some r →
      (removeResolver st h).1 = some r ∧
      alookup h (removeResolver st h).2.resolversMap = none ∧
      alookup r.id (removeResolver st h).2.idMap = none ∧
      (∀ p ∈ (removeResolver st h).2.mapA, p.2 ≠ h) ∧
      (∀ p ∈ (removeResolver st h).2.mapB, p.2 ≠ h) ∧
      (removeResolver st h).2.sendList =
        (if r.sent then st.sendList else eraseFirst h st.sendList) ∧
      h ∉ (removeResolver st h).2.sendList ∧
      WF (removeResolver st h).2) := by
  constructor
  · intro hn
    simp [removeResolver, hn]
  · intro r hr
    obtain ⟨h1, -, -, -, -, -, h7, -, -, h10, -, h12, h13, h14, h15, h16⟩ :=
      removeResolver_found st h r hwf hr
    exact ⟨h1, h12, h13, h14, h15, h7, h16, h10⟩

/-- C7 witness: full removal of the one outstanding request of a concrete
well-formed registry. -/
theorem C7_witness :
    alookup 1 (removeResolver
        ⟨[(1, ⟨[97], 28, 7, 100, true, false⟩)], [(7, 1)], [(100, 1)], [], [1], true, true⟩
        1).2.resolversMap = none ∧
    alookup 7 (removeResolver
        ⟨[(1, ⟨[97], 28, 7, 100, true, false⟩)], [(7, 1)], [(100, 1)], [], [1], true, true⟩
        1).2.idMap = none ∧
    WF (removeResolver
        ⟨[(1, ⟨[97], 28, 7, 100, true, false⟩)], [(7, 1)], [(100, 1)], [], [1], true, true⟩
        1).2 :=
  by
  have hmain := (C7_remove_protocol
      ⟨[(1, ⟨[97], 28, 7, 100, true, false⟩)], [(7, 1)], [(100, 1)], [], [1], true, true⟩
      1 (by decide)).2 ⟨[97], 28, 7, 100, true, false⟩ rfl
  exact ⟨hmain.2.1, hmain.2.2.1, hmain.2.2.2.2.2.2.2⟩

/-- Handling of a parsed reply for the outstanding request with caller
handle `h` (source lines 762-787): on `NO_SUCH_HOST` while the record type
is still AAAA (28), flip the record type to A (1), mark the request unsent
and push it to the back of the send queue — invoking `StartSending` (the
returned flag) exactly when the queue was previously empty — with no
callback; otherwise remove the request and queue its terminal callback
with the parse result.  Returns (new state, callbacks fired, whether
`StartSending` was invoked). -/
def handleReply (st : DnsState) (h : Nat) (res : POut) : DnsState × List (Nat × POut) × Bool :=
  match alookup h st.resolversMap with
  | none => (st, [], false)
  | some r =>
    if res = POut.noSuchHost ∧ r.recordType = 28 then
      ({ st with
         resolversMap := aupdate h { r with recordType := 1, sent := false } st.resolversMap,
         sendList := st.sendList ++ [h] },
       [], st.sendList.isEmpty)
    else
      ((removeResolver st h).2, [(h, res)], false)

theorem not_mem_keys_aeraseKey {α : Type} (k : Nat) : ∀ (l : List (Nat × α)),
    (l.map Prod.fst).Nodup → k ∉ (aeraseKey k l).map Prod.fst := by
  intro l
  induction l with
  | nil => intro _; simp [aeraseKey]
  | cons p t ih =>
    intro hnd
    obtain ⟨k', v'⟩ := p
    simp only [List.map_cons, List.nodup_cons] at hnd
    simp only [aeraseKey]
    by_cases hk : k' = k
    · rw [if_pos hk]
      exact hk ▸ hnd.1
    · rw [if_neg hk]
      simp only [List.map_cons, List.mem_cons]
      push_neg
      exact ⟨fun hc => hk hc.symm, ih hnd.2⟩

/-- C8: on a `NO_SUCH_HOST` reply for a request whose record type is still
AAAA, the engine flips the record type to A, re-enqueues the request at the
back of the send queue — invoking `StartSending` exactly when the queue was
previously empty — and fires no callback; the request stays outstanding
with record type A, so the fallback branch is disabled from then on, and a
second `NO_SUCH_HOST` reply removes the request and fires its callback
exactly then, with `NO_SUCH_HOST`. -/
theorem C8_aaaa_fallback (st : DnsState) (h : Nat) (r : Resolver)
    (hnd : (st.resolversMap.map Prod.fst).Nodup)
    (hr : alookup h st.resolversMap = some r) (h28 : r.recordType = 28) :
    (handleReply st h POut.noSuchHost =
      ({ st with
         resolversMap := aupdate h { r with recordType := 1, sent := false } st.resolversMap,
         sendList := st.sendList ++ [h] },
       [], st.sendList.isEmpty)) ∧
    (alookup h (handleReply st h POut.noSuchHost).1.resolversMap =
      some { r with recordType := 1, sent := false }) ∧
    ((handleReply (handleReply st h POut.noSuchHost).1 h POut.noSuchHost).2.1 =
      [(h, POut.noSuchHost)]) ∧
    (alookup h (handleReply (handleReply st h POut.noSuchHost).1 h
        POut.noSuchHost).1.resolversMap = none) := by
  have h2' : alookup h (aupdate h { r with recordType := 1, sent := false } st.resolversMap) =
      some { r with recordType := 1, sent := false } := alookup_aupdate h _ _ r hr
  have h1 : handleReply st h POut.noSuchHost =
      ({ st with
         resolversMap := aupdate h { r with recordType := 1, sent := false } st.resolversMap,
         sendList := st.sendList ++ [h] },
       [], st.sendList.isEmpty) := by
    simp only [handleReply, hr]
    rw [if_pos ⟨trivial, h28⟩]
  have h3 : handleReply
      ({ st with
         resolversMap := aupdate h { r with recordType := 1, sent := false } st.resolversMap,
         sendList := st.sendList ++ [h] }) h POut.noSuchHost =
      ((removeResolver
        ({ st with
           resolversMap := aupdate h { r with recordType := 1, sent := false } st.resolversMap,
           sendList := st.sendList ++ [h] }) h).2, [(h, POut.noSuchHost)], false) := by
    simp only [handleReply, h2']
    rw [if_neg (by simp)]
  have h4 : (removeResolver
      ({ st with
         resolversMap := aupdate h { r with recordType := 1, sent := false } st.resolversMap,
         sendList := st.sendList ++ [h] }) h).2.resolversMap =
      aeraseKey h (aupdate h { r with recordType := 1, sent := false } st.resolversMap) := by
    simp only [removeResolver, h2']
  refine ⟨h1, ?_, ?_, ?_⟩
  · rw [h1]
    exact h2'
  · rw [h1, h3]
  · rw [h1, h3, h4]
    apply alookup_eq_none
    apply not_mem_keys_aeraseKey
    rw [keys_aupdate]
    exact hnd

/-- C8 witness: the two-step fallback on a concrete registry with one
outstanding AAAA request. -/
theorem C8_witness :
    (handleReply ⟨[(1, ⟨[97], 28, 7, 100, true, true⟩)], [(7, 1)], [(100, 1)], [], [], true, true⟩
        1 POut.noSuchHost).2.1 = [] ∧
    (handleReply (handleReply
        ⟨[(1, ⟨[97], 28, 7, 100, true, true⟩)], [(7, 1)], [(100, 1)], [], [], true, true⟩
        1 POut.noSuchHost).1 1 POut.noSuchHost).2.1 = [(1, POut.noSuchHost)] := by
  have hmain := C8_aaaa_fallback
    ⟨[(1, ⟨[97], 28, 7, 100, true, true⟩)], [(7, 1)], [(100, 1)], [], [], true, true⟩
    1 ⟨[97], 28, 7, 100, true, true⟩ (by decide) rfl rfl
  constructor
  · rw [hmain.1]
  · exact hmain.2.2.1

/-- The expiry map the engine's `timeMap1` pointer currently designates. -/
def curMap (st : DnsState) : List (Nat × Nat) :=
  if st.curIsA then st.mapA else st.mapB

/-- The expiry map the engine's `timeMap2` pointer currently designates. -/
def nextMap (st : DnsState) : List (Nat × Nat) :=
  if st.curIsA then st.mapB else st.mapA

/-- `ting::u32(-1) / 2`, the boundary used by `isFirstHalf` (source line
851). -/
def halfMax : Nat := 2147483647

/-- `ting::u32(-1) / 4`, the wait clamp (source line 897). -/
def quarterMax : Nat := 1073741823

/-- The wraparound flush (source lines 855-861): repeatedly remove the
front request of the current expiry map, with a Timeout callback each.
The fuel is instantiated with the map's length; under the registry
invariant every iteration removes exactly the front entry, so the fuel is
never exhausted. -/
def flushLoop : Nat → DnsState → DnsState × List Nat
  | 0, st => (st, [])
  | fuel + 1, st =>
    match curMap st with
    | [] => (st, [])
    | (_, h) :: _ =>
      let res := flushLoop fuel (removeResolver st h).2
      (res.1, h :: res.2)

/-- The expiry sweep (source lines 869-880): remove front entries of the
current expiry map while their key is at most the current tick, with a
Timeout callback each. -/
def expireLoop : Nat → Nat → DnsState → DnsState × List Nat
  | 0, _, st => (st, [])
  | fuel + 1, t, st =>
    match curMap st with
    | [] => (st, [])
    | (k, h) :: _ =>
      if t < k then (st, [])
      else
        let res := expireLoop fuel t (removeResolver st h).2
        (res.1, h :: res.2)

/-- Outcome of one expiry pass: the thread exits (registry empty), waits
for the given duration, or dereferences the begin iterator of an empty map
(the unguarded `timeMap1->begin()` after the asserted invariant fails). -/
inductive WaitRes : Type where
  | exit : WaitRes
  | wait : Nat → WaitRes
  | undef : WaitRes
deriving DecidableEq, Repr

/-- One tick-processing pass of `LookupThread::Run` (source lines
849-897): detect wraparound (current tick in the first half while the last
observed tick was not), on wraparound time out everything in the current
map and swap the map pointers, record the half of the current tick, run
the ≤-tick expiry sweep, exit if no requests remain, otherwise compute the
wait as the smallest current key minus the tick, clamped to
`ting::u32(-1)/4`.  Returns (new state, Timeout callbacks in order, wait
outcome).  `finishPass` is the tail of the iteration: the registry-empty
exit check and the wait computation from the front of the current map. -/
def finishPass (st : DnsState) (cbs : List Nat) (t : Nat) : DnsState × List Nat × WaitRes :=
  if st.resolversMap = [] then (st, cbs, WaitRes.exit)
  else
    match curMap st with
    | [] => (st, cbs, WaitRes.undef)
    | (k, _) :: _ => (st, cbs, WaitRes.wait (min (k - t) quarterMax))

def timeoutPass (st : DnsState) (t : Nat) : DnsState × List Nat × WaitRes :=
  let isFirst : Bool := decide (t < halfMax)
  let p1 :=
    if isFirst && !st.lastTicksInFirstHalf then
      let f := flushLoop (curMap st).length st
      ({ f.1 with curIsA := !f.1.curIsA }, f.2)
    else (st, [])
  let st1 := { p1.1 with lastTicksInFirstHalf := isFirst }
  let e := expireLoop (curMap st1).length t st1
  finishPass e.1 (p1.2 ++ e.2) t

/-- Modelled from the spec and claim wording of the expiry pass: on a
wraparound (tick in the lower half of the 32-bit range, previous tick not)
every request still in the current map is completed with Timeout and the
maps are swapped, otherwise exactly the entries with key at most the tick
are expired; afterwards the wait is the smallest remaining current key
minus the tick (32-bit arithmetic), clamped.  This is the claim's reading,
under which no ≤-tick sweep runs after the swap. -/
def specTimeoutPass (st : DnsState) (t : Nat) : DnsState × List Nat × WaitRes :=
  let isFirst : Bool := decide (t < 2 ^ 31)
  let p1 :=
    if isFirst && !st.lastTicksInFirstHalf then
      let f := flushLoop (curMap st).length st
      ({ f.1 with curIsA := !f.1.curIsA, lastTicksInFirstHalf := isFirst }, f.2)
    else
      let e := expireLoop (curMap st).length t { st with lastTicksInFirstHalf := isFirst }
      (e.1, e.2)
  if p1.1.resolversMap = [] then (p1.1, p1.2, WaitRes.exit)
  else
    match curMap p1.1 with
    | [] => (p1.1, p1.2, WaitRes.undef)
    | (k, _) :: _ => (p1.1, p1.2, WaitRes.wait (min ((k + 2 ^ 32 - t) % 2 ^ 32) quarterMax))

theorem alookup_of_mem {α : Type} : ∀ (l : List (Nat × α)),
    (l.map Prod.fst).Nodup → ∀ (k : Nat) (v : α), (k, v) ∈ l → alookup k l = some v := by
  intro l
  induction l with
  | nil => intro _ k v hm; simp at hm
  | cons p t ih =>
    intro hnd k v hm
    obtain ⟨k', v'⟩ := p
    simp only [List.map_cons, List.nodup_cons] at hnd
    simp only [alookup]
    by_cases hk : k' = k
    · rw [if_pos hk]
      rcases List.mem_cons.mp hm with he | hmt
      · injection he with a b
        rw [b]
      · exact absurd (hk ▸ List.mem_map_of_mem Prod.fst hmt) hnd.1
    · rw [if_neg hk]
      rcases List.mem_cons.mp hm with he | hmt
      · injection he with a b
        exact absurd a.symm hk
      · exact ih hnd.2 k v hmt

theorem dropWhile_head_false {α : Type} (p : α → Bool) : ∀ (l : List α) (x : α) (xs : List α),
    l.dropWhile p = x :: xs → p x = false := by
  intro l
  induction l with
  | nil => intro x xs h; simp [List.dropWhile] at h
  | cons y t ih =>
    intro x xs h
    by_cases hy : p y = true
    · rw [List.dropWhile_cons_of_pos hy] at h
      exact ih x xs h
    · rw [List.dropWhile_cons_of_neg hy] at h
      injection h with h1 _
      subst h1
      exact Bool.eq_false_iff.mpr hy

theorem takeWhile_eq_filter_of_sorted (t : Nat) : ∀ (l : List (Nat × Nat)),
    List.Pairwise (fun x y => x.1 ≤ y.1) l →
    l.takeWhile (fun p => decide (p.1 ≤ t)) = l.filter (fun p => decide (p.1 ≤ t)) := by
  intro l
  induction l with
  | nil => intro _; rfl
  | cons p l ih =>
    intro hs
    obtain ⟨hall, hrest⟩ := List.pairwise_cons.mp hs
    by_cases hp : p.1 ≤ t
    · rw [List.takeWhile_cons_of_pos (by simpa using hp),
        List.filter_cons_of_pos (by simpa using hp), ih hrest]
    · rw [List.takeWhile_cons_of_neg (by simpa using hp),
        List.filter_cons_of_neg (by simpa using hp)]
      have : ∀ x ∈ l, ¬(x.1 ≤ t) := by
        intro x hx
        have := hall x hx
        omega
      rw [List.filter_eq_nil_iff.mpr (by intro x hx; simpa using this x hx)]

/-- Removing the front request of the current expiry map removes exactly
that entry from it, leaves the other expiry map unchanged, and preserves
the invariant. -/
theorem removeResolver_curHead (st : DnsState) (k h : Nat) (rest : List (Nat × Nat))
    (hwf : WF st) (hcur : curMap st = (k, h) :: rest) :
    curMap (removeResolver st h).2 = rest ∧
    nextMap (removeResolver st h).2 = nextMap st ∧
    (removeResolver st h).2.curIsA = st.curIsA ∧
    (removeResolver st h).2.lastTicksInFirstHalf = st.lastTicksInFirstHalf ∧
    WF (removeResolver st h).2 := by
  obtain ⟨hknd, hidnd, hidp, hap, hbp, hsp, hsa, hsb⟩ := hwf
  have hmemcur : (k, h) ∈ curMap st := by
    rw [hcur]
    simp
  by_cases hA : st.curIsA
  · have hmemA : (k, h) ∈ timeEntriesA st.resolversMap := by
      have hcm : curMap st = st.mapA := by simp [curMap, hA]
      exact hap.mem_iff.mp (hcm ▸ hmemcur)
    obtain ⟨q, hq, heq⟩ := List.mem_map.mp hmemA
    obtain ⟨hh, r⟩ := q
    obtain ⟨hqm, hqp⟩ := List.mem_filter.mp hq
    injection heq with he1 he2
    have hrA : r.inA = true := by simpa using hqp
    have hrk : r.expiry = k := by simpa using he1
    have hlook : alookup h st.resolversMap = some r :=
      alookup_of_mem _ hknd h r (he2 ▸ hqm)
    obtain ⟨-, -, -, -, h5, h6, -, h8, h9, h10, -, -, -, -, -, -⟩ :=
      removeResolver_found st h r ⟨hknd, hidnd, hidp, hap, hbp, hsp, hsa, hsb⟩ hlook
    rw [if_pos hrA] at h5
    rw [if_pos hrA] at h6
    have hcmA : curMap st = st.mapA := by simp [curMap, hA]
    refine ⟨?_, ?_, h8, h9, h10⟩
    · have hMA : st.mapA = (k, h) :: rest := hcmA.symm.trans hcur
      rw [curMap, h8, if_pos hA, h5, hrk, hMA]
      simp [eraseFirst]
    · rw [nextMap, h8, if_pos hA, h6, nextMap, if_pos hA]
  · have hA' : st.curIsA = false := by
      cases hAB : st.curIsA
      · rfl
      · exact absurd hAB hA
    have hmemB : (k, h) ∈ timeEntriesB st.resolversMap := by
      have hcm : curMap st = st.mapB := by simp [curMap, hA']
      exact hbp.mem_iff.mp (hcm ▸ hmemcur)
    obtain ⟨q, hq, heq⟩ := List.mem_map.mp hmemB
    obtain ⟨hh, r⟩ := q
    obtain ⟨hqm, hqp⟩ := List.mem_filter.mp hq
    injection heq with he1 he2
    have hrA : r.inA = false := by
      have := hqp
      simp at this
      exact this
    have hrk : r.expiry = k := by simpa using he1
    have hlook : alookup h st.resolversMap = some r :=
      alookup_of_mem _ hknd h r (he2 ▸ hqm)
    obtain ⟨-, -, -, -, h5, h6, -, h8, h9, h10, -, -, -, -, -, -⟩ :=
      removeResolver_found st h r ⟨hknd, hidnd, hidp, hap, hbp, hsp, hsa, hsb⟩ hlook
    rw [if_neg (by simp [hrA])] at h5
    rw [if_neg (by simp [hrA])] at h6
    have hcmB : curMap st = st.mapB := by simp [curMap, hA']
    refine ⟨?_, ?_, h8, h9, h10⟩
    · have hMB : st.mapB = (k, h) :: rest := hcmB.symm.trans hcur
      rw [curMap, h8, hA', if_neg (by simp), h6, hrk, hMB]
      simp [eraseFirst]
    · rw [nextMap, h8, hA', if_neg (by simp), h5, nextMap, hA', if_neg (by simp)]

/-- The wraparound flush empties the current map, firing one Timeout per
entry in ascending order, and touches nothing else. -/
theorem flushLoop_spec : ∀ (n : Nat) (st : DnsState), WF st → (curMap st).length ≤ n →
    curMap (flushLoop n st).1 = [] ∧
    (flushLoop n st).2 = (curMap st).map Prod.snd ∧
    nextMap (flushLoop n st).1 = nextMap st ∧
    (flushLoop n st).1.curIsA = st.curIsA ∧
    (flushLoop n st).1.lastTicksInFirstHalf = st.lastTicksInFirstHalf ∧
    WF (flushLoop n st).1 := by
  intro n
  induction n with
  | zero =>
    intro st hwf hlen
    have hcur : curMap st = [] := List.length_eq_zero.mp (Nat.le_zero.mp hlen)
    simp [flushLoop, hcur, hwf]
  | succ n ih =>
    intro st hwf hlen
    cases hcur : curMap st with
    | nil => simp [flushLoop, hcur, hwf]
    | cons p rest =>
      obtain ⟨k, h⟩ := p
      obtain ⟨hc1, hc2, hc3, hc4, hc5⟩ := removeResolver_curHead st k h rest hwf hcur
      have hlen2 : (curMap (removeResolver st h).2).length ≤ n := by
        rw [hc1]
        rw [hcur] at hlen
        simp only [List.length_cons] at hlen
        omega
      obtain ⟨ih1, ih2, ih3, ih4, ih5, ih6⟩ := ih (removeResolver st h).2 hc5 hlen2
      simp only [flushLoop, hcur]
      refine ⟨ih1, ?_, ih3.trans hc2, ih4.trans hc3, ih5.trans hc4, ih6⟩
      rw [ih2, hc1]
      simp

/-- The expiry sweep removes exactly the ascending prefix of entries with
key at most the tick, firing one Timeout per removed entry in order. -/
theorem expireLoop_spec : ∀ (n t : Nat) (st : DnsState), WF st → (curMap st).length ≤ n →
    curMap (expireLoop n t st).1 = (curMap st).dropWhile (fun p => decide (p.1 ≤ t)) ∧
    (expireLoop n t st).2 = ((curMap st).takeWhile (fun p => decide (p.1 ≤ t))).map Prod.snd ∧
    nextMap (expireLoop n t st).1 = nextMap st ∧
    (expireLoop n t st).1.curIsA = st.curIsA ∧
    (expireLoop n t st).1.lastTicksInFirstHalf = st.lastTicksInFirstHalf ∧
    WF (expireLoop n t st).1 := by
  intro n
  induction n with
  | zero =>
    intro t st hwf hlen
    have hcur : curMap st = [] := List.length_eq_zero.mp (Nat.le_zero.mp hlen)
    simp [expireLoop, hcur, hwf]
  | succ n ih =>
    intro t st hwf hlen
    cases hcur : curMap st with
    | nil => simp [expireLoop, hcur, hwf]
    | cons p rest =>
      obtain ⟨k, h⟩ := p
      by_cases hk : t < k
      · simp only [expireLoop, hcur]
        rw [if_pos hk]
        refine ⟨?_, ?_, rfl, rfl, rfl, hwf⟩
        · rw [List.dropWhile_cons_of_neg (by simp; omega)]
          exact hcur
        · rw [List.takeWhile_cons_of_neg (by simp; omega)]
          simp
      · obtain ⟨hc1, hc2, hc3, hc4, hc5⟩ := removeResolver_curHead st k h rest hwf hcur
        have hlen2 : (curMap (removeResolver st h).2).length ≤ n := by
          rw [hc1]
          rw [hcur] at hlen
          simp only [List.length_cons] at hlen
          omega
        obtain ⟨ih1, ih2, ih3, ih4, ih5, ih6⟩ := ih t (removeResolver st h).2 hc5 hlen2
        simp only [expireLoop, hcur]
        rw [if_neg hk]
        refine ⟨?_, ?_, ih3.trans hc2, ih4.trans hc3, ih5.trans hc4, ih6⟩
        · rw [ih1, hc1, List.dropWhile_cons_of_pos (by simp; omega)]
        · rw [ih2, hc1, List.takeWhile_cons_of_pos (by simp; omega)]
          simp

theorem finishPass_state (st : DnsState) (cbs : List Nat) (t : Nat) :
    (finishPass st cbs t).1 = st ∧ (finishPass st cbs t).2.1 = cbs := by
  simp only [finishPass]
  by_cases hres : st.resolversMap = []
  · simp [hres]
  · rw [if_neg hres]
    cases hcm : curMap st with
    | nil => exact ⟨rfl, rfl⟩
    | cons p rest => obtain ⟨k, h⟩ := p; exact ⟨rfl, rfl⟩

theorem finishPass_exit (st : DnsState) (cbs : List Nat) (t : Nat) :
    ((finishPass st cbs t).2.2 = WaitRes.exit ↔ st.resolversMap = []) := by
  simp only [finishPass]
  by_cases hres : st.resolversMap = []
  · simp [hres]
  · rw [if_neg hres]
    cases hcm : curMap st with
    | nil => simp [hres]
    | cons p rest => obtain ⟨k, h⟩ := p; simp [hres]

theorem finishPass_wait (st : DnsState) (cbs : List Nat) (t : Nat) (v : Nat) :
    (finishPass st cbs t).2.2 = WaitRes.wait v →
      ∃ k h rest, curMap st = (k, h) :: rest ∧ v = min (k - t) quarterMax := by
  simp only [finishPass]
  by_cases hres : st.resolversMap = []
  · simp [hres]
  · rw [if_neg hres]
    cases hcm : curMap st with
    | nil => simp
    | cons p rest =>
      obtain ⟨k, h⟩ := p
      intro hv
      simp only [] at hv
      injection hv with hv2
      exact ⟨k, h, rest, rfl, hv2.symm⟩

/-- C3 (amended): on each pass with tick `t`, if `t` is below
`ting::u32(-1)/2` while the previously observed tick was not (wraparound),
every entry of the current expiry map is expired with Timeout in order,
the maps are swapped, and then additionally those entries of the new
current map with key at most `t` are expired in ascending order; without
wraparound, exactly the entries of the current map with key at most `t`
are expired, in ascending order (under the invariant the maps are
key-sorted, so the expired prefix is exactly the set of entries with key
at most `t`).  The engine exits exactly when no request remains;
otherwise, when the current map is nonempty, the next wait duration is the
smallest remaining current key minus `t` (which exceeds `t`), clamped to
`ting::u32(-1)/4`; and the registry invariant is preserved. -/
theorem C3_expiry_pass (st : DnsState) (t : Nat) (hwf : WF st) :
    ((decide (t < halfMax) && !st.lastTicksInFirstHalf) = true →
      (timeoutPass st t).2.1 =
        (curMap st).map Prod.snd ++
          ((nextMap st).takeWhile (fun p => decide (p.1 ≤ t))).map Prod.snd ∧
      curMap (timeoutPass st t).1 = (nextMap st).dropWhile (fun p => decide (p.1 ≤ t)) ∧
      (timeoutPass st t).1.curIsA = !st.curIsA) ∧
    ((decide (t < halfMax) && !st.lastTicksInFirstHalf) = false →
      (timeoutPass st t).2.1 =
        ((curMap st).takeWhile (fun p => decide (p.1 ≤ t))).map Prod.snd ∧
      curMap (timeoutPass st t).1 = (curMap st).dropWhile (fun p => decide (p.1 ≤ t)) ∧
      (timeoutPass st t).1.curIsA = st.curIsA) ∧
    ((curMap st).takeWhile (fun p => decide (p.1 ≤ t)) =
      (curMap st).filter (fun p => decide (p.1 ≤ t))) ∧
    ((nextMap st).takeWhile (fun p => decide (p.1 ≤ t)) =
      (nextMap st).filter (fun p => decide (p.1 ≤ t))) ∧
    (((timeoutPass st t).2.2 = WaitRes.exit) ↔ (timeoutPass st t).1.resolversMap = []) ∧
    (∀ v, (timeoutPass st t).2.2 = WaitRes.wait v →
      ∃ k h rest, curMap (timeoutPass st t).1 = (k, h) :: rest ∧ t < k ∧
        v = min (k - t) quarterMax) ∧
    WF (timeoutPass st t).1 := by
  have hsortA : List.Pairwise (fun x y => x.1 ≤ y.1) st.mapA := hwf.2.2.2.2.2.2.1
  have hsortB : List.Pairwise (fun x y => x.1 ≤ y.1) st.mapB := hwf.2.2.2.2.2.2.2
  have hsortCur : List.Pairwise (fun x y => x.1 ≤ y.1) (curMap st) := by
    by_cases hc : st.curIsA <;> simp [curMap, hc, hsortA, hsortB]
  have hsortNext : List.Pairwise (fun x y => x.1 ≤ y.1) (nextMap st) := by
    by_cases hc : st.curIsA <;> simp [nextMap, hc, hsortA, hsortB]
  by_cases hbr : (decide (t < halfMax) && !st.lastTicksInFirstHalf) = true
  · obtain ⟨hf1, hf2, hf3, hf4, hf5, hf6⟩ :=
      flushLoop_spec (curMap st).length st hwf (Nat.le_refl _)
    simp only [timeoutPass, hbr, if_true]
    set f := flushLoop (curMap st).length st with hfdef
    set st1 : DnsState :=
      { resolversMap := f.1.resolversMap, idMap := f.1.idMap, mapA := f.1.mapA,
        mapB := f.1.mapB, sendList := f.1.sendList, curIsA := !f.1.curIsA,
        lastTicksInFirstHalf := decide (t < halfMax) } with hst1def
    have hwf1 : WF st1 := hf6
    have hcm1 : curMap st1 = nextMap st := by
      rw [← hf3]
      cases hc : f.1.curIsA <;> simp [hst1def, curMap, nextMap, hc]
    obtain ⟨he1, he2, he3, he4, he5, he6⟩ :=
      expireLoop_spec (curMap st1).length t st1 hwf1 (Nat.le_refl _)
    set e := expireLoop (curMap st1).length t st1 with hedef
    rw [hcm1] at he1 he2
    obtain ⟨hfs1, hfs2⟩ := finishPass_state e.1 (f.2 ++ e.2) t
    refine ⟨fun _ => ⟨?_, ?_, ?_⟩, fun hc => absurd hc (by simp),
      takeWhile_eq_filter_of_sorted t _ hsortCur, takeWhile_eq_filter_of_sorted t _ hsortNext,
      ?_, ?_, ?_⟩
    · rw [hfs2, he2, hf2]
    · rw [hfs1, he1]
    · rw [hfs1, he4]
      show st1.curIsA = !st.curIsA
      rw [hst1def]
      show (!f.1.curIsA) = !st.curIsA
      rw [hf4]
    · rw [hfs1]
      exact finishPass_exit e.1 (f.2 ++ e.2) t
    · intro v hv
      obtain ⟨k, h, rest, hk1, hk2⟩ := finishPass_wait e.1 (f.2 ++ e.2) t v hv
      refine ⟨k, h, rest, ?_, ?_, hk2⟩
      · rw [hfs1]
        exact hk1
      · rw [he1] at hk1
        have := dropWhile_head_false _ _ _ _ hk1
        simp at this
        omega
    · rw [hfs1]
      exact he6
  · have hbr2 : (decide (t < halfMax) && !st.lastTicksInFirstHalf) = false :=
      Bool.eq_false_iff.mpr hbr
    simp only [timeoutPass, hbr2, Bool.false_eq_true, if_false, List.nil_append]
    set st1 : DnsState :=
      { resolversMap := st.resolversMap, idMap := st.idMap, mapA := st.mapA,
        mapB := st.mapB, sendList := st.sendList, curIsA := st.curIsA,
        lastTicksInFirstHalf := decide (t < halfMax) } with hst1def
    have hwf1 : WF st1 := hwf
    have hcm1 : curMap st1 = curMap st := by
      cases hc : st.curIsA <;> simp [hst1def, curMap, hc]
    obtain ⟨he1, he2, he3, he4, he5, he6⟩ :=
      expireLoop_spec (curMap st1).length t st1 hwf1 (Nat.le_refl _)
    set e := expireLoop (curMap st1).length t st1 with hedef
    rw [hcm1] at he1 he2
    obtain ⟨hfs1, hfs2⟩ := finishPass_state e.1 e.2 t
    refine ⟨fun hc => absurd hc (by simp), fun _ => ⟨?_, ?_, ?_⟩,
      takeWhile_eq_filter_of_sorted t _ hsortCur, takeWhile_eq_filter_of_sorted t _ hsortNext,
      ?_, ?_, ?_⟩
    · rw [hfs2, he2]
    · rw [hfs1, he1]
    · rw [hfs1, he4]
    · rw [hfs1]
      exact finishPass_exit e.1 e.2 t
    · intro v hv
      obtain ⟨k, h, rest, hk1, hk2⟩ := finishPass_wait e.1 e.2 t v hv
      refine ⟨k, h, rest, ?_, ?_, hk2⟩
      · rw [hfs1]
        exact hk1
      · rw [he1] at hk1
        have := dropWhile_head_false _ _ _ _ hk1
        simp at this
        omega
    · rw [hfs1]
      exact he6

/-- C3 counterexample: a registry with one request in the current map
(expiry 4000000000) and one in the next map (expiry 5), observed at tick
10 just after a wraparound.  The code flushes the current map, swaps, and
then also expires the swapped-in entry with key 5 ≤ 10, emptying the
registry and exiting; the claim's reading ("otherwise exactly those
entries ... are expired") leaves that entry outstanding and computes a
wait from it, so its callback list and wait outcome differ from the
code's. -/
theorem C3_counterexample :
    (timeoutPass
        ⟨[(1, ⟨[97], 1, 0, 4000000000, true, true⟩), (2, ⟨[98], 1, 3, 5, false, true⟩)],
         [(0, 1), (3, 2)], [(4000000000, 1)], [(5, 2)], [], true, false⟩ 10).2.1 = [1, 2] ∧
    (specTimeoutPass
        ⟨[(1, ⟨[97], 1, 0, 4000000000, true, true⟩), (2, ⟨[98], 1, 3, 5, false, true⟩)],
         [(0, 1), (3, 2)], [(4000000000, 1)], [(5, 2)], [], true, false⟩ 10).2.1 = [1] ∧
    (timeoutPass
        ⟨[(1, ⟨[97], 1, 0, 4000000000, true, true⟩), (2, ⟨[98], 1, 3, 5, false, true⟩)],
         [(0, 1), (3, 2)], [(4000000000, 1)], [(5, 2)], [], true, false⟩ 10).2.2 =
      WaitRes.exit ∧
    (specTimeoutPass
        ⟨[(1, ⟨[97], 1, 0, 4000000000, true, true⟩), (2, ⟨[98], 1, 3, 5, false, true⟩)],
         [(0, 1), (3, 2)], [(4000000000, 1)], [(5, 2)], [], true, false⟩ 10).2.2 =
      WaitRes.wait 1073741823 := by
  decide

/-- C3 witness: the amended wraparound characterization applied to the
concrete post-wraparound registry. -/
theorem C3_witness :
    (timeoutPass
        ⟨[(1, ⟨[97], 1, 0, 4000000000, true, true⟩), (2, ⟨[98], 1, 3, 5, false, true⟩)],
         [(0, 1), (3, 2)], [(4000000000, 1)], [(5, 2)], [], true, false⟩ 10).2.1 =
      (curMap
        ⟨[(1, ⟨[97], 1, 0, 4000000000, true, true⟩), (2, ⟨[98], 1, 3, 5, false, true⟩)],
         [(0, 1), (3, 2)], [(4000000000, 1)], [(5, 2)], [], true, false⟩).map Prod.snd ++
        ((nextMap
          ⟨[(1, ⟨[97], 1, 0, 4000000000, true, true⟩), (2, ⟨[98], 1, 3, 5, false, true⟩)],
           [(0, 1), (3, 2)], [(4000000000, 1)], [(5, 2)], [], true, false⟩).takeWhile
            (fun p => decide (p.1 ≤ 10))).map Prod.snd ∧
    curMap (timeoutPass
        ⟨[(1, ⟨[97], 1, 0, 4000000000, true, true⟩), (2, ⟨[98], 1, 3, 5, false, true⟩)],
         [(0, 1), (3, 2)], [(4000000000, 1)], [(5, 2)], [], true, false⟩ 10).1 =
      (nextMap
        ⟨[(1, ⟨[97], 1, 0, 4000000000, true, true⟩), (2, ⟨[98], 1, 3, 5, false, true⟩)],
         [(0, 1), (3, 2)], [(4000000000, 1)], [(5, 2)], [], true, false⟩).dropWhile
          (fun p => decide (p.1 ≤ 10)) ∧
    (timeoutPass
        ⟨[(1, ⟨[97], 1, 0, 4000000000, true, true⟩), (2, ⟨[98], 1, 3, 5, false, true⟩)],
         [(0, 1), (3, 2)], [(4000000000, 1)], [(5, 2)], [], true, false⟩ 10).1.curIsA =
      !(⟨[(1, ⟨[97], 1, 0, 4000000000, true, true⟩), (2, ⟨[98], 1, 3, 5, false, true⟩)],
         [(0, 1), (3, 2)], [(4000000000, 1)], [(5, 2)], [], true, false⟩ : DnsState).curIsA :=
  (C3_expiry_pass
      ⟨[(1, ⟨[97], 1, 0, 4000000000, true, true⟩), (2, ⟨[98], 1, 3, 5, false, true⟩)],
       [(0, 1), (3, 2)], [(4000000000, 1)], [(5, 2)], [], true, false⟩ 10 (by decide)).1
    (by decide)
